import Mathlib

/-!
Verification of the dynamics-fitting optimization engine of
`dart/biomechanics/DynamicsFitter.cpp` (ResidualForceHelper,
DynamicsFitProblem, DynamicsFitter).

The C++ scalar `s_t` (double) is embedded as `ℚ`; Eigen vectors and
matrices are lists of rationals (one inner list per matrix column or row,
as noted at each definition).  Stateful skeleton access is modelled by
explicit state passing.  Quantities produced by the external skeletal
model collaborator (mass matrix, Coriolis vector, world transforms,
convex-shape tests, Ridders finite differencing) are fields of model
structures, exactly as the spec treats them: black boxes.
-/

namespace DynamicsFitter

/-- Scalar type of the source (`s_t`, a double). Embedded exactly as `ℚ`. -/
abbrev s_t := ℚ

/-- Elementwise sum of two vectors (`Eigen` `+`). -/
def vAdd (a b : List s_t) : List s_t := List.zipWith (fun x y => x + y) a b

/-- Elementwise difference of two vectors (`Eigen` `-`). -/
def vSub (a b : List s_t) : List s_t := List.zipWith (fun x y => x - y) a b

/-- Dot product of two vectors. -/
def dot (a b : List s_t) : s_t := (List.zipWith (fun x y => x * y) a b).sum

/-- Matrix (list of rows) times vector. -/
def matVec (m : List (List s_t)) (v : List s_t) : List s_t :=
  m.map (fun row => dot row v)

/-- Squared Euclidean norm (`Eigen::squaredNorm`). -/
def sqNorm (v : List s_t) : s_t := (v.map (fun a => a * a)).sum

/-- Entry `(t, i)` of a column-major matrix stored as a list of columns. -/
def col (m : List (List s_t)) (t i : ℕ) : s_t := (m.getD t []).getD i 0

/-!
### DynamicsFitProblem: decision-variable layout

`DynamicsFitProblem::flatten` / `unflatten` / `getProblemSize`
(DynamicsFitter.cpp lines 406-716).  The layout order is
[masses][COMs][inertias][bodyScales][markerOffsets][per-trial poses].
-/

/-- Inclusion flags and fixed dimensions of a `DynamicsFitProblem`
(the builder-settable `mInclude*` members plus the skeleton dimensions
the flattening code queries). -/
structure ProblemConfig where
  numScaleGroups : ℕ
  groupScaleDim : ℕ
  dofs : ℕ
  includeMasses : Bool
  includeCOMs : Bool
  includeInertias : Bool
  includeBodyScales : Bool
  includeMarkerOffsets : Bool
  includePoses : Bool
deriving DecidableEq

/-- Per-trial trajectory state `mPoses/mVels/mAccs[trial]` (one inner list
per matrix column) plus the trial's timestep `mInit->trialTimesteps[trial]`. -/
structure TrialData where
  dt : s_t
  poses : List (List s_t)
  vels : List (List s_t)
  accs : List (List s_t)
deriving DecidableEq

/-- Grouped inertial parameters stored in the skeleton collaborator
(`getGroupMasses` / `setGroupMasses` and friends are get/set pairs on
these stored vectors). -/
structure SkelGroups where
  groupMasses : List s_t
  groupCOMs : List s_t
  groupInertias : List s_t
  groupScales : List s_t
deriving DecidableEq

/-- The mutable state `flatten`/`unflatten` map to and from: skeleton group
parameters, marker offsets `mMarkers[i].second`, and the trial trajectories. -/
structure ProblemState where
  skel : SkelGroups
  markerOffsets : List (List s_t)
  trials : List TrialData
deriving DecidableEq

/-- Number of flat entries one trial contributes when poses are included:
`mAccs[trial].cols() * dofs * 3` for the (q, dq, ddq) triples plus
`dofs * 3` for the trailing last-two-q and last-dq block
(DynamicsFitter.cpp lines 429-438). -/
def trialPoseSize (dofs : ℕ) (tr : TrialData) : ℕ :=
  tr.accs.length * dofs * 3 + dofs * 3

/-- `DynamicsFitProblem::getProblemSize` (lines 406-441): sum of the
dimensions of every included variable group. -/
def getProblemSize (c : ProblemConfig) (s : ProblemState) : ℕ :=
  (if c.includeMasses then c.numScaleGroups else 0)
  + (if c.includeCOMs then c.numScaleGroups * 3 else 0)
  + (if c.includeInertias then c.numScaleGroups * 6 else 0)
  + (if c.includeBodyScales then c.groupScaleDim else 0)
  + (if c.includeMarkerOffsets then s.markerOffsets.length * 3 else 0)
  + (if c.includePoses then (s.trials.map (trialPoseSize c.dofs)).sum else 0)

/-- The interleaved `[q_t, dq_t, ddq_t]` serialization loop of `flatten`
(lines 487-495): the loop runs for `t < mAccs[trial].cols()`; under the
shape invariant (`poses` has two more and `vels` one more column than
`accs`) this simultaneous recursion visits exactly those columns. -/
def flattenTriples : List (List s_t) → List (List s_t) → List (List s_t) → List s_t
  | q :: qs, v :: vs, a :: as2 => q ++ v ++ a ++ flattenTriples qs vs as2
  | _, _, _ => []

/-- Serialization of one trial in `flatten` (lines 485-504): the
interleaved triples followed by `poses.col(lastAccT+1)`,
`vels.col(lastAccT+1)`, `poses.col(lastAccT+2)`, where
`lastAccT = accs.cols() - 1` so the trailing indices are `accs.cols()`
and `accs.cols() + 1`. -/
def flattenTrial (tr : TrialData) : List s_t :=
  flattenTriples tr.poses tr.vels tr.accs
    ++ tr.poses.getD tr.accs.length []
    ++ tr.vels.getD tr.accs.length []
    ++ tr.poses.getD (tr.accs.length + 1) []

/-- `DynamicsFitProblem::flatten` (lines 445-510). -/
def flatten (c : ProblemConfig) (s : ProblemState) : List s_t :=
  (if c.includeMasses then s.skel.groupMasses else [])
  ++ (if c.includeCOMs then s.skel.groupCOMs else [])
  ++ (if c.includeInertias then s.skel.groupInertias else [])
  ++ (if c.includeBodyScales then s.skel.groupScales else [])
  ++ (if c.includeMarkerOffsets then s.markerOffsets.flatten else [])
  ++ (if c.includePoses then (s.trials.map flattenTrial).flatten else [])

/-- The per-marker cursor loop of `unflatten` (lines 683-690): reads `n`
consecutive 3-segments.  Returns the parsed offsets and the remaining
input. -/
def parseMarkers : ℕ → List s_t → List (List s_t) × List s_t
  | 0, x => ([], x)
  | n + 1, x =>
    let r := parseMarkers n (x.drop 3)
    (x.take 3 :: r.1, r.2)

/-- The per-timestep cursor loop of `unflatten` (lines 696-704): reads `k`
consecutive `[q, dq, ddq]` triples of `dofs` entries each.  Returns the
parsed position, velocity and acceleration columns and the remaining
input. -/
def parseTriples (dofs : ℕ) :
    ℕ → List s_t →
      List (List s_t) × List (List s_t) × List (List s_t) × List s_t
  | 0, x => ([], [], [], x)
  | k + 1, x =>
    let q := x.take dofs
    let x1 := x.drop dofs
    let v := x1.take dofs
    let x2 := x1.drop dofs
    let a := x2.take dofs
    let x3 := x2.drop dofs
    let r := parseTriples dofs k x3
    (q :: r.1, v :: r.2.1, a :: r.2.2.1, r.2.2.2)

/-- The per-trial part of `unflatten` (lines 694-712): the interleaved
triples, then `poses.col(lastAccT+1)`, `vels.col(lastAccT+1)`,
`poses.col(lastAccT+2)`.  Under the shape invariant these writes cover
every column, so the new trial state is determined by the input. -/
def parseTrial (dofs accCols : ℕ) (dt : s_t) (x : List s_t) :
    TrialData × List s_t :=
  let r := parseTriples dofs accCols x
  let x0 := r.2.2.2
  let qLast1 := x0.take dofs
  let x1 := x0.drop dofs
  let vLast := x1.take dofs
  let x2 := x1.drop dofs
  let qLast2 := x2.take dofs
  let x3 := x2.drop dofs
  (⟨dt, r.1 ++ [qLast1, qLast2], r.2.1 ++ [vLast], r.2.2.1⟩, x3)

/-- The trial loop of `unflatten`: each trial is parsed with the column
count of its existing acceleration matrix. -/
def parseTrials (dofs : ℕ) : List TrialData → List s_t → List TrialData × List s_t
  | [], x => ([], x)
  | tr :: rest, x =>
    let r := parseTrial dofs tr.accs.length tr.dt x
    let q := parseTrials dofs rest r.2
    (r.1 :: q.1, q.2)

/-- `DynamicsFitProblem::unflatten` (lines 649-716).  The memoization guard
(lines 651-655) only skips re-applying a bit-identical `x`, which leaves
the state it had already produced for that `x`; the state mapping itself
is the cursor parse below. -/
def unflatten (c : ProblemConfig) (s : ProblemState) (x : List s_t) : ProblemState :=
  let n1 := if c.includeMasses then c.numScaleGroups else 0
  let masses := if c.includeMasses then x.take c.numScaleGroups else s.skel.groupMasses
  let x1 := x.drop n1
  let n2 := if c.includeCOMs then c.numScaleGroups * 3 else 0
  let coms := if c.includeCOMs then x1.take (c.numScaleGroups * 3) else s.skel.groupCOMs
  let x2 := x1.drop n2
  let n3 := if c.includeInertias then c.numScaleGroups * 6 else 0
  let inertias := if c.includeInertias then x2.take (c.numScaleGroups * 6) else s.skel.groupInertias
  let x3 := x2.drop n3
  let n4 := if c.includeBodyScales then c.groupScaleDim else 0
  let scales := if c.includeBodyScales then x3.take c.groupScaleDim else s.skel.groupScales
  let x4 := x3.drop n4
  let mk := if c.includeMarkerOffsets then parseMarkers s.markerOffsets.length x4
            else (s.markerOffsets, x4)
  let trs := if c.includePoses then (parseTrials c.dofs s.trials mk.2).1 else s.trials
  { skel := { groupMasses := masses, groupCOMs := coms,
              groupInertias := inertias, groupScales := scales },
    markerOffsets := mk.1, trials := trs }

/-- Shape consistency of a problem state with the skeleton dimensionality:
group vectors have their skeleton-determined lengths, marker offsets are
3-vectors, and each trial satisfies
`poses.cols() == vels.cols()+1 == accs.cols()+2` with `dofs`-sized columns. -/
def WF (c : ProblemConfig) (s : ProblemState) : Prop :=
  s.skel.groupMasses.length = c.numScaleGroups ∧
  s.skel.groupCOMs.length = c.numScaleGroups * 3 ∧
  s.skel.groupInertias.length = c.numScaleGroups * 6 ∧
  s.skel.groupScales.length = c.groupScaleDim ∧
  (∀ o ∈ s.markerOffsets, o.length = 3) ∧
  (∀ tr ∈ s.trials,
    tr.poses.length = tr.accs.length + 2 ∧
    tr.vels.length = tr.accs.length + 1 ∧
    (∀ p ∈ tr.poses, p.length = c.dofs) ∧
    (∀ v ∈ tr.vels, v.length = c.dofs) ∧
    (∀ a ∈ tr.accs, a.length = c.dofs))

instance (c : ProblemConfig) (s : ProblemState) : Decidable (WF c s) := by
  unfold WF
  infer_instance

/-!
### DynamicsFitProblem: finite-difference equality constraints

`getConstraintSize` (lines 1357-1374) and `computeConstraints`
(lines 1380-1422).
-/

/-- `DynamicsFitProblem::getConstraintSize` (lines 1357-1374).  Note: the
trailing `dofs` block for the last-velocity constraint is added once,
after the per-trial loop, not once per trial. -/
def getConstraintSize (c : ProblemConfig) (s : ProblemState) : ℕ :=
  if c.includePoses then
    (s.trials.map (fun tr => tr.accs.length * c.dofs * 2)).sum + c.dofs
  else 0

/-- The cursor-ordered sequence of constraint values one trial emits in
`computeConstraints` (lines 1390-1417): for every acceleration timestep
`t`, `dofs` rows of `v_t·dt − (q_{t+1} − q_t)` then `dofs` rows of
`a_t·dt − (v_{t+1} − v_t)`; after the loop, `dofs` rows of
`v_{lastAccT+1}·dt − (q_{lastAccT+2} − q_{lastAccT+1})`. -/
def trialConstraints (dofs : ℕ) (tr : TrialData) : List s_t :=
  ((List.range tr.accs.length).map (fun t =>
      (List.range dofs).map (fun i =>
          col tr.vels t i * tr.dt - (col tr.poses (t + 1) i - col tr.poses t i))
      ++ (List.range dofs).map (fun i =>
          col tr.accs t i * tr.dt - (col tr.vels (t + 1) i - col tr.vels t i)))).flatten
  ++ (List.range dofs).map (fun i =>
      col tr.vels tr.accs.length i * tr.dt
        - (col tr.poses (tr.accs.length + 1) i - col tr.poses tr.accs.length i))

/-- `DynamicsFitProblem::computeConstraints` (lines 1380-1422), as the
cursor-ordered sequence of writes the function performs.  (The C++
allocates a `getConstraintSize()`-long zero vector and writes through a
cursor, asserting `cursor == constraints.size()` at the end; this list is
exactly the sequence of written values, so the assert holds iff this
list's length equals `getConstraintSize`.) -/
def computeConstraints (c : ProblemConfig) (s : ProblemState) : List s_t :=
  if c.includePoses then (s.trials.map (trialConstraints c.dofs)).flatten else []

/-!
### ResidualForceHelper

`calculateResidual` and the Jacobian/gradient methods
(DynamicsFitter.cpp lines 47-313).  The skeleton's mutable
position/velocity/acceleration scratch state is threaded explicitly; the
dynamics quantities the skeleton collaborator supplies (mass matrix,
Coriolis vector, contact-wrench generalized forces and their Jacobians,
the Ridders finite-difference fallback, Euclidean norms) are opaque
fields of `DynModel`.
-/

/-- Skeleton pose/velocity/acceleration scratch state. -/
structure SkelDyn where
  pos : List s_t
  vel : List s_t
  acc : List s_t
deriving DecidableEq

/-- `neural::WithRespectTo` parameter kinds dispatched on by
`calculateResidualJacobianWrt`; `other` stands for any kind that falls
through to the numerical finite-difference path. -/
inductive WRT where
  | position
  | velocity
  | acceleration
  | groupMasses
  | groupCOMs
  | groupInertias
  | groupScales
  | other
deriving DecidableEq

/-- Skeleton getter `getPositions`. -/
def getPositions (st : SkelDyn) : List s_t := st.pos

/-- Skeleton getter `getVelocities`. -/
def getVelocities (st : SkelDyn) : List s_t := st.vel

/-- Skeleton getter `getAccelerations`. -/
def getAccelerations (st : SkelDyn) : List s_t := st.acc

/-- Skeleton setter `setPositions`. -/
def setPositions (st : SkelDyn) (q : List s_t) : SkelDyn := { st with pos := q }

/-- Skeleton setter `setVelocities`. -/
def setVelocities (st : SkelDyn) (dq : List s_t) : SkelDyn := { st with vel := dq }

/-- Skeleton setter `setAccelerations`. -/
def setAccelerations (st : SkelDyn) (ddq : List s_t) : SkelDyn := { st with acc := ddq }

/-- The external skeletal-model collaborator as consumed by
`ResidualForceHelper`: opaque dynamics primitives, all functions of the
explicitly-passed skeleton state they are evaluated at. -/
structure DynModel where
  ndofs : ℕ
  numForces : ℕ
  massMatrix : List s_t → List (List s_t)
  coriolis : List s_t → List s_t → List s_t
  computeTau : ℕ → List s_t → List s_t → List s_t
  wrtDim : WRT → ℕ
  jacobianOfM : List s_t → List s_t → WRT → List (List s_t)
  jacobianOfC : List s_t → List s_t → WRT → List (List s_t)
  jacobianOfTauWrt : ℕ → List s_t → List s_t → WRT → List (List s_t)
  fdResidualJac : List s_t → List s_t → List s_t → List s_t → WRT → List (List s_t)
  fdNormGrad : List s_t → List s_t → List s_t → List s_t → WRT → Bool → List s_t
  vecNorm : List s_t → s_t
  vecNormalize : List s_t → List s_t

/-- Matrix sum, rowwise. -/
def matAdd (a b : List (List s_t)) : List (List s_t) := List.zipWith vAdd a b

/-- Matrix difference, rowwise. -/
def matSub (a b : List (List s_t)) : List (List s_t) := List.zipWith vSub a b

/-- Scalar times vector. -/
def vScale (c : s_t) (v : List s_t) : List s_t := v.map (fun a => c * a)

/-- Zero matrix of the given shape (`Eigen::MatrixXs::Zero`). -/
def zeroMat (rows cols : ℕ) : List (List s_t) :=
  List.replicate rows (List.replicate cols 0)

/-- `forcesConcat.segment<6>(i * 6)`. -/
def segment6 (f : List s_t) (i : ℕ) : List s_t := (f.drop (6 * i)).take 6

/-- Sum of generalized contact forces (lines 65-71): `Fs` starts at zero
and accumulates `computeTau` of each assigned body's 6-wrench. -/
def contactForcesSum (m : DynModel) (q forcesConcat : List s_t) : List s_t :=
  (List.range m.numForces).foldl
    (fun Fs i => vAdd Fs (m.computeTau i q (segment6 forcesConcat i)))
    (List.replicate m.ndofs (0 : s_t))

/-- Sum of contact-force Jacobians (lines 124-131). -/
def contactForcesJacSum (m : DynModel) (q forcesConcat : List s_t) (wrt : WRT) :
    List (List s_t) :=
  (List.range m.numForces).foldl
    (fun dFs i => matAdd dFs (m.jacobianOfTauWrt i q (segment6 forcesConcat i) wrt))
    (zeroMat m.ndofs (m.wrtDim wrt))

/-- `ResidualForceHelper::calculateResidual` (lines 47-79): saves the
skeleton state, sets `(q, dq, ddq)`, computes
`M·ddq + C − ΣF_contact`, restores the state, and returns the first 6
entries. -/
def calculateResidual (m : DynModel) (st : SkelDyn)
    (q dq ddq forcesConcat : List s_t) : List s_t × SkelDyn :=
  let originalPos := getPositions st
  let originalVel := getVelocities st
  let originalAcc := getAccelerations st
  let st1 := setAccelerations (setVelocities (setPositions st q) dq) ddq
  let M := m.massMatrix (getPositions st1)
  let C := m.coriolis (getPositions st1) (getVelocities st1)
  let Fs := contactForcesSum m (getPositions st1) forcesConcat
  let manualTau := vSub (vAdd (matVec M (getAccelerations st1)) C) Fs
  let st2 := setAccelerations (setVelocities (setPositions st1 originalPos) originalVel) originalAcc
  (manualTau.take 6, st2)

/-- `ResidualForceHelper::calculateResidualNorm` (lines 83-99): sum of
head/tail 3-vector norms in L1 mode, squared L2 norm otherwise. -/
def calculateResidualNorm (m : DynModel) (st : SkelDyn)
    (q dq ddq forcesConcat : List s_t) (useL1 : Bool) : s_t × SkelDyn :=
  let r := calculateResidual m st q dq ddq forcesConcat
  (if useL1 then m.vecNorm (r.1.take 3) + m.vecNorm (r.1.drop 3) else sqNorm r.1,
   r.2)

/-- `ResidualForceHelper::finiteDifferenceResidualJacobianWrt`
(lines 194-239): saves the state (correctly, lines 203-205), runs the
external Ridders finite-difference loop (whose perturbations it undoes by
restoring `wrt`), and restores positions, velocities and accelerations. -/
def finiteDifferenceResidualJacobianWrt (m : DynModel) (st : SkelDyn)
    (q dq ddq forcesConcat : List s_t) (wrt : WRT) :
    List (List s_t) × SkelDyn :=
  let originalPos := getPositions st
  let originalVel := getVelocities st
  let originalAcc := getAccelerations st
  let st1 := setAccelerations (setVelocities (setPositions st q) dq) ddq
  let result := m.fdResidualJac q dq ddq forcesConcat wrt
  let st2 := setAccelerations (setVelocities (setPositions st1 originalPos) originalVel) originalAcc
  (result, st2)

/-- `ResidualForceHelper::calculateResidualJacobianWrt` (lines 103-190).
Note line 112 of the source: `originalAcc` is saved from
`mSkel->getVelocities()`, so every branch restores the accelerations to
the pre-call velocities. -/
def calculateResidualJacobianWrt (m : DynModel) (st : SkelDyn)
    (q dq ddq forcesConcat : List s_t) (wrt : WRT) :
    List (List s_t) × SkelDyn :=
  let originalPos := getPositions st
  let originalVel := getVelocities st
  let originalAcc := getVelocities st
  let st1 := setAccelerations (setVelocities (setPositions st q) dq) ddq
  if wrt = WRT.position ∨ wrt = WRT.groupScales then
    let dM := m.jacobianOfM (getPositions st1) (getAccelerations st1) wrt
    let dC := m.jacobianOfC (getPositions st1) (getVelocities st1) wrt
    let dFs := contactForcesJacSum m (getPositions st1) forcesConcat wrt
    let jac := matSub (matAdd dM dC) dFs
    let st2 := setAccelerations (setVelocities (setPositions st1 originalPos) originalVel) originalAcc
    (jac.take 6, st2)
  else if wrt = WRT.groupMasses ∨ wrt = WRT.groupCOMs ∨ wrt = WRT.groupInertias then
    let dM := m.jacobianOfM (getPositions st1) (getAccelerations st1) wrt
    let dC := m.jacobianOfC (getPositions st1) (getVelocities st1) wrt
    let jac := matAdd dM dC
    let st2 := setAccelerations (setVelocities (setPositions st1 originalPos) originalVel) originalAcc
    (jac.take 6, st2)
  else if wrt = WRT.velocity then
    let dC := m.jacobianOfC (getPositions st1) (getVelocities st1) WRT.velocity
    let st2 := setAccelerations (setVelocities (setPositions st1 originalPos) originalVel) originalAcc
    (dC.take 6, st2)
  else if wrt = WRT.acceleration then
    let M := m.massMatrix (getPositions st1)
    let st2 := setAccelerations (setVelocities (setPositions st1 originalPos) originalVel) originalAcc
    (M.take 6, st2)
  else
    let r := finiteDifferenceResidualJacobianWrt m st1 q dq ddq forcesConcat wrt
    let st2 := setAccelerations (setVelocities (setPositions r.2 originalPos) originalVel) originalAcc
    (r.1, st2)

/-- `ResidualForceHelper::calculateResidualNormGradientWrt`
(lines 243-264): `Jᵀ·(2r)` in L2 mode, `Jᵀ·normalize-by-halves(r)` in L1
mode; the two inner calls run sequentially on the shared skeleton. -/
def calculateResidualNormGradientWrt (m : DynModel) (st : SkelDyn)
    (q dq ddq forcesConcat : List s_t) (wrt : WRT) (useL1 : Bool) :
    List s_t × SkelDyn :=
  let r := calculateResidual m st q dq ddq forcesConcat
  let j := calculateResidualJacobianWrt m r.2 q dq ddq forcesConcat wrt
  let value :=
    if useL1 then
      matVec (List.transpose j.1)
        (m.vecNormalize (r.1.take 3) ++ m.vecNormalize (r.1.drop 3))
    else
      matVec (List.transpose j.1) (vScale 2 r.1)
  (value, j.2)

/-- `ResidualForceHelper::finiteDifferenceResidualNormGradientWrt`
(lines 268-313): saves the state (correctly), runs the external
finite-difference loop, restores `wrt` and the skeleton state. -/
def finiteDifferenceResidualNormGradientWrt (m : DynModel) (st : SkelDyn)
    (q dq ddq forcesConcat : List s_t) (wrt : WRT) (useL1 : Bool) :
    List s_t × SkelDyn :=
  let originalPos := getPositions st
  let originalVel := getVelocities st
  let originalAcc := getAccelerations st
  let st1 := setAccelerations (setVelocities (setPositions st q) dq) ddq
  let result := m.fdNormGrad q dq ddq forcesConcat wrt useL1
  let st2 := setAccelerations (setVelocities (setPositions st1 originalPos) originalVel) originalAcc
  (result, st2)

/-!
### DynamicsFitProblem: loss function

`computeLoss` (lines 722-913) and the fatal-precondition guard shared
with `computeGradient` (lines 743-750, 965-972).  Quantities that the
external skeleton supplies per timestep (marker world-position costs,
joint-center and joint-axis penalties, residual norms) are opaque fields
of `LossModel`, indexed by `(trial, t)`; everything the loss computes
from problem state and init data is transcribed exactly.
-/

/-- Finite sum `Σ_{i < n} f i` over the scalar type (a `for` accumulation
loop). -/
def lsum (n : ℕ) (f : ℕ → s_t) : s_t := ((List.range n).map f).sum

/-- Finite sum `Σ_{i < n} f i` over naturals (a counting loop). -/
def nsum (n : ℕ) (f : ℕ → ℕ) : ℕ := ((List.range n).map f).sum

/-- Default trial used by positional lookups (never reached on in-range
indices). -/
def emptyTrial : TrialData := ⟨0, [], [], []⟩

/-- Weights, regularization targets and external per-timestep quantities
consumed by `computeLoss`/`computeGradient`.  `resNorm trial t` is the
value `mResidualHelper->calculateResidualNorm(...)` returns at that
timestep; `markerCost`, `jointTerm` and `axisTerm` are the per-timestep
marker / joint-center / joint-axis penalties, which depend on external
world-position evaluation. -/
structure LossModel where
  numScaleGroups : ℕ
  residualWeight : s_t
  markerWeight : s_t
  jointWeight : s_t
  regularizeMasses : s_t
  regularizeCOMs : s_t
  regularizeInertias : s_t
  regularizeBodyScales : s_t
  regularizeTrackingMarkerOffsets : s_t
  regularizeAnatomicalMarkerOffsets : s_t
  regularizePoses : s_t
  markerIsTracking : List Bool
  originalGroupMasses : List s_t
  originalGroupCOMs : List s_t
  originalGroupInertias : List s_t
  originalGroupScales : List s_t
  hasOriginalMarkerOffset : List Bool
  originalMarkerOffsets : List (List s_t)
  originalPoses : List (List (List s_t))
  probablyMissingGRF : List (List Bool)
  observed : ℕ → ℕ → ℕ → Bool
  markerCost : ℕ → ℕ → ℕ → s_t
  jointTerm : ℕ → ℕ → s_t
  axisTerm : ℕ → ℕ → s_t
  resNorm : ℕ → ℕ → s_t

/-- `totalTimesteps` of `computeLoss` (lines 795-801): sum of pose
columns over all trials. -/
def totalTimesteps (s : ProblemState) : ℕ :=
  (s.trials.map (fun tr => tr.poses.length)).sum

/-- `totalAccTimesteps` of `computeLoss` (lines 795-801): sum of
acceleration columns over all trials. -/
def totalAccTimesteps (s : ProblemState) : ℕ :=
  (s.trials.map (fun tr => tr.accs.length)).sum

/-- Mass regularization term (lines 752-755). -/
def massRegularization (m : LossModel) (s : ProblemState) : s_t :=
  m.regularizeMasses * (1 / (m.numScaleGroups : s_t))
    * sqNorm (vSub s.skel.groupMasses m.originalGroupMasses)

/-- COM regularization term (lines 758-760). -/
def comRegularization (m : LossModel) (s : ProblemState) : s_t :=
  m.regularizeCOMs * (1 / (m.numScaleGroups : s_t))
    * sqNorm (vSub s.skel.groupCOMs m.originalGroupCOMs)

/-- Inertia regularization term (lines 763-766). -/
def inertiaRegularization (m : LossModel) (s : ProblemState) : s_t :=
  m.regularizeInertias * (1 / (m.numScaleGroups : s_t))
    * sqNorm (vSub s.skel.groupInertias m.originalGroupInertias)

/-- Body-scale regularization term (lines 769-772); note the source also
normalizes this one by the scale-group count. -/
def scaleRegularization (m : LossModel) (s : ProblemState) : s_t :=
  m.regularizeBodyScales * (1 / (m.numScaleGroups : s_t))
    * sqNorm (vSub s.skel.groupScales m.originalGroupScales)

/-- Marker-offset regularization term (lines 775-790): markers with no
entry in `originalMarkerOffsets` contribute nothing; tracking and
anatomical markers use different weights. -/
def markerRegularization (m : LossModel) (s : ProblemState) : s_t :=
  lsum m.markerIsTracking.length (fun i =>
    if m.hasOriginalMarkerOffset.getD i false then
      (if m.markerIsTracking.getD i false then m.regularizeTrackingMarkerOffsets
       else m.regularizeAnatomicalMarkerOffsets)
        * (1 / (m.markerIsTracking.length : s_t))
        * sqNorm (vSub (s.markerOffsets.getD i []) (m.originalMarkerOffsets.getD i []))
    else 0)

/-- Residual-force accumulation of `computeLoss` (lines 810-827): the
timestep loop runs over every pose column, adds
`mResidualWeight * (1/totalAccTimesteps) * calculateResidualNorm(...)`
exactly when `t < mAccs[trial].cols()` and
`!mInit->probablyMissingGRF[trial][t]`. -/
def residualRMS (m : LossModel) (s : ProblemState) : s_t :=
  lsum s.trials.length (fun trial =>
    lsum ((s.trials.getD trial emptyTrial).poses.length) (fun t =>
      if t < (s.trials.getD trial emptyTrial).accs.length
          ∧ ¬((m.probablyMissingGRF.getD trial []).getD t false) then
        m.residualWeight * (1 / (totalAccTimesteps s : s_t)) * m.resNorm trial t
      else 0))

/-- Raw marker cost accumulation (lines 830-852), before the weight and
count normalization applied after the loop. -/
def markerRMSRaw (m : LossModel) (s : ProblemState) : s_t :=
  lsum s.trials.length (fun trial =>
    lsum ((s.trials.getD trial emptyTrial).poses.length) (fun t =>
      lsum m.markerIsTracking.length (fun i =>
        if m.observed trial t i then m.markerCost trial t i else 0)))

/-- Count of observed markers across all frames (`markerCount`). -/
def markerCount (m : LossModel) (s : ProblemState) : ℕ :=
  nsum s.trials.length (fun trial =>
    nsum ((s.trials.getD trial emptyTrial).poses.length) (fun t =>
      nsum m.markerIsTracking.length (fun i =>
        if m.observed trial t i then 1 else 0)))

/-- Joint-center penalty accumulation (lines 854-866). -/
def jointRMSRaw (m : LossModel) (s : ProblemState) : s_t :=
  lsum s.trials.length (fun trial =>
    lsum ((s.trials.getD trial emptyTrial).poses.length) (fun t =>
      m.jointTerm trial t))

/-- Joint-axis penalty accumulation (lines 867-876). -/
def axisRMSRaw (m : LossModel) (s : ProblemState) : s_t :=
  lsum s.trials.length (fun trial =>
    lsum ((s.trials.getD trial emptyTrial).poses.length) (fun t =>
      m.axisTerm trial t))

/-- Pose regularization term (lines 878-883). -/
def poseRegularization (m : LossModel) (s : ProblemState) : s_t :=
  lsum s.trials.length (fun trial =>
    lsum ((s.trials.getD trial emptyTrial).poses.length) (fun t =>
      m.regularizePoses * (1 / (totalTimesteps s : s_t))
        * sqNorm (vSub ((s.trials.getD trial emptyTrial).poses.getD t [])
            ((m.originalPoses.getD trial []).getD t []))))

/-- The named subtotals `computeLoss` computes and then sums
(lines 752-898). -/
structure LossTerms where
  massRegularization : s_t
  comRegularization : s_t
  inertiaRegularization : s_t
  scaleRegularization : s_t
  markerRegularization : s_t
  residualRMS : s_t
  markerRMS : s_t
  jointRMS : s_t
  axisRMS : s_t
  poseRegularization : s_t

/-- The subtotals of `computeLoss` after the post-loop adjustments
(lines 886-897): the marker cost is scaled by `mMarkerWeight` and divided
by `markerCount` when that count is positive; joint and axis penalties
are scaled by `mJointWeight`. -/
def computeLossTerms (m : LossModel) (s : ProblemState) : LossTerms :=
  { massRegularization := massRegularization m s
    comRegularization := comRegularization m s
    inertiaRegularization := inertiaRegularization m s
    scaleRegularization := scaleRegularization m s
    markerRegularization := markerRegularization m s
    residualRMS := residualRMS m s
    markerRMS :=
      if 0 < markerCount m s then
        markerRMSRaw m s * m.markerWeight / (markerCount m s : s_t)
      else markerRMSRaw m s * m.markerWeight
    jointRMS := jointRMSRaw m s * m.jointWeight
    axisRMS := axisRMSRaw m s * m.jointWeight
    poseRegularization := poseRegularization m s }

/-- The total loss: the sum of the subtotals, in the order the source
accumulates them into `sum`. -/
def computeLossValue (m : LossModel) (s : ProblemState) : s_t :=
  let terms := computeLossTerms m s
  terms.massRegularization + terms.comRegularization
    + terms.inertiaRegularization + terms.scaleRegularization
    + terms.markerRegularization + terms.residualRMS + terms.markerRMS
    + terms.jointRMS + terms.axisRMS + terms.poseRegularization

/-- `DynamicsFitProblem::computeLoss` (lines 722-913).  The fatal guard
(lines 743-750) fires `exit(1)` when `probablyMissingGRF` has fewer
per-trial entries than `poseTrials` (and `mPoses` is built with one entry
per pose trial); process termination is embedded as the `error` case. -/
def computeLoss (m : LossModel) (s : ProblemState) : Except Unit s_t :=
  if m.probablyMissingGRF.length < s.trials.length then Except.error ()
  else Except.ok (computeLossValue m s)

/-- `DynamicsFitProblem::computeGradient` (lines 917-1330), modelled to
the depth the claims constrain it: the identical fatal guard
(lines 965-972) fires before any computation, and the successful path
assembles the gradient from external Jacobian primitives (not used by any
claim, elided as the unit payload). -/
def computeGradient (m : LossModel) (s : ProblemState) : Except Unit Unit :=
  if m.probablyMissingGRF.length < s.trials.length then Except.error ()
  else Except.ok ()

/-- The residual-force sum over exactly the non-flagged acceleration
timesteps (the numerator both readings agree on). -/
def residualSumNonFlagged (m : LossModel) (s : ProblemState) : s_t :=
  lsum s.trials.length (fun trial =>
    lsum ((s.trials.getD trial emptyTrial).accs.length) (fun t =>
      if ¬((m.probablyMissingGRF.getD trial []).getD t false) then
        m.resNorm trial t
      else 0))

/-- Count of acceleration timesteps not flagged `probablyMissingGRF`. -/
def nonFlaggedAccTimesteps (m : LossModel) (s : ProblemState) : ℕ :=
  nsum s.trials.length (fun trial =>
    nsum ((s.trials.getD trial emptyTrial).accs.length) (fun t =>
      if ¬((m.probablyMissingGRF.getD trial []).getD t false) then 1 else 0))

/-- The residual-force term as the spec sentence reads: scaled by the
residual weight and normalized by the count of non-flagged timesteps.
Stated from the spec's words, for comparison against `residualRMS`. -/
def residualRMSSpecReading (m : LossModel) (s : ProblemState) : s_t :=
  m.residualWeight * residualSumNonFlagged m s
    / (nonFlaggedAccTimesteps m s : s_t)

/-!
### DynamicsFitProblem: sparse constraints Jacobian

`computeSparseConstraintsJacobian` (lines 1427-1528) and the dense
fallback `computeConstraintsJacobian` (lines 1531-1546).
-/

/-- One `(row, col, value)` entry of the sparse constraints Jacobian. -/
abbrev Triple := ℕ × ℕ × s_t

/-- The three entries emitted for one velocity-consistency row
(lines 1470-1481): `+1` at `q_i_t0`, `−1` at `q_i_t1`, `dt` at `dq_i_t0`. -/
def velRowBlock (dofs colCursor rowCursor : ℕ) (dt : s_t) (i : ℕ) : List Triple :=
  [(rowCursor + i, colCursor + i, 1),
   (rowCursor + i, colCursor + dofs * 3 + i, -1),
   (rowCursor + i, colCursor + dofs + i, dt)]

/-- The three entries emitted for one acceleration-consistency row
(lines 1482-1493): `+1` at `dq_i_t0`, `−1` at `dq_i_t1`, `dt` at
`ddq_i_t0`. -/
def accRowBlock (dofs colCursor rowCursor : ℕ) (dt : s_t) (i : ℕ) : List Triple :=
  [(rowCursor + i, colCursor + dofs + i, 1),
   (rowCursor + i, colCursor + dofs * 3 + dofs + i, -1),
   (rowCursor + i, colCursor + dofs * 2 + i, dt)]

/-- The three entries emitted for one trailing last-velocity row
(lines 1502-1515), laid out over the final `[q, dq, q]` block. -/
def lastRowBlock (dofs colCursor rowCursor : ℕ) (dt : s_t) (i : ℕ) : List Triple :=
  [(rowCursor + i, colCursor + i, 1),
   (rowCursor + i, colCursor + dofs * 2 + i, -1),
   (rowCursor + i, colCursor + dofs + i, dt)]

/-- Entries emitted for one acceleration timestep: `dofs`
velocity-consistency rows then `dofs` acceleration-consistency rows. -/
def timestepTriples (dofs colC rowC : ℕ) (dt : s_t) : List Triple :=
  ((List.range dofs).map (velRowBlock dofs colC rowC dt)).flatten
  ++ ((List.range dofs).map (accRowBlock dofs colC (rowC + dofs) dt)).flatten

/-- Entries emitted for one trial (lines 1465-1521): per acceleration
timestep the two row groups, advancing the column cursor by `3·dofs`
per timestep and the row cursor by `2·dofs`; after the loop, the
trailing last-velocity rows. -/
def trialTriples (dofs : ℕ) (dt : s_t) : ℕ → ℕ → ℕ → List Triple
  | 0, colC, rowC => ((List.range dofs).map (lastRowBlock dofs colC rowC dt)).flatten
  | k + 1, colC, rowC =>
    timestepTriples dofs colC rowC dt
      ++ trialTriples dofs dt k (colC + dofs * 3) (rowC + dofs * 2)

/-- Entries emitted over the trial list; each trial advances the column
cursor by its whole flat-pose footprint and the row cursor by its
constraint-row count. -/
def allTrialTriples (dofs : ℕ) : List (s_t × ℕ) → ℕ → ℕ → List Triple
  | [], _, _ => []
  | (dt, k) :: rest, colC, rowC =>
    trialTriples dofs dt k colC rowC
      ++ allTrialTriples dofs rest (colC + dofs * 3 * (k + 1))
          (rowC + (dofs * 2 * k + dofs))

/-- The initial column cursor (lines 1429-1453): total dimension of the
included non-pose variable groups preceding the pose block. -/
def nonPoseDim (c : ProblemConfig) (s : ProblemState) : ℕ :=
  (if c.includeMasses then c.numScaleGroups else 0)
  + (if c.includeCOMs then c.numScaleGroups * 3 else 0)
  + (if c.includeInertias then c.numScaleGroups * 6 else 0)
  + (if c.includeBodyScales then c.groupScaleDim else 0)
  + (if c.includeMarkerOffsets then s.markerOffsets.length * 3 else 0)

/-- `DynamicsFitProblem::computeSparseConstraintsJacobian`
(lines 1427-1528): the emitted `(row, col, value)` triples, in emission
order. -/
def computeSparseConstraintsJacobian (c : ProblemConfig) (s : ProblemState) :
    List Triple :=
  if c.includePoses then
    allTrialTriples c.dofs (s.trials.map (fun tr => (tr.dt, tr.accs.length)))
      (nonPoseDim c s) 0
  else []

/-- Sequential assembly `J(row, col) = value` over the triples, starting
from a zero matrix (lines 1540-1544); the matrix is its entry function. -/
def denseFromTriples (l : List Triple) : ℕ → ℕ → s_t :=
  l.foldl (fun M tr => fun r c => if r = tr.1 ∧ c = tr.2.1 then tr.2.2 else M r c)
    (fun _ _ => 0)

/-- `DynamicsFitProblem::computeConstraintsJacobian` (lines 1531-1546):
zero when poses are excluded, otherwise the dense assembly of the sparse
triples. -/
def computeConstraintsJacobian (c : ProblemConfig) (s : ProblemState) :
    ℕ → ℕ → s_t :=
  if c.includePoses then denseFromTriples (computeSparseConstraintsJacobian c s)
  else fun _ _ => 0

/-- The triples whose row field is `r`. -/
def filterRow (r : ℕ) (l : List Triple) : List Triple :=
  l.filter (fun tr => tr.1 == r)

/-- The triples whose row and column fields are `(r, col)`. -/
def filterKey (r col : ℕ) (l : List Triple) : List Triple :=
  l.filter (fun tr => tr.1 == r && tr.2.1 == col)

/-- Total number of constraint rows the trial list emits:
`2·dofs` per acceleration timestep plus `dofs` per trial. -/
def rowSpan (dofs : ℕ) (dts : List (s_t × ℕ)) : ℕ :=
  (dts.map (fun p => dofs * 2 * p.2 + dofs)).sum

/-- Offset of trial `trial`'s pose block in the flat decision vector: the
included non-pose dimensions followed by the flat footprints of the
preceding trials. -/
def trialBase (c : ProblemConfig) (s : ProblemState) (trial : ℕ) : ℕ :=
  nonPoseDim c s + ((s.trials.take trial).map (trialPoseSize c.dofs)).sum

/-- Flat-vector column holding `mPoses[trial].col(t)(i)` in the `flatten`
layout whose trial block starts at `base`: position columns sit first in
each interleaved `[q, dq, ddq]` timestep block for `t ≤ accCols` (the
trailing block starts with `q_{accCols}`), and `q_{accCols+1}` sits after
the trailing `[q, dq]` pair. -/
def qFlatCol (dofs accCols base t i : ℕ) : ℕ :=
  if t ≤ accCols then base + dofs * 3 * t + i
  else base + dofs * 3 * accCols + dofs * 2 + i

/-- Flat-vector column holding `mVels[trial].col(t)(i)`: velocity columns
sit `dofs` after the position columns of the same timestep, in the
interleaved blocks (`t < accCols`) and in the trailing block
(`t = accCols`) alike. -/
def vFlatCol (dofs base t i : ℕ) : ℕ := base + dofs * 3 * t + dofs + i

/-- Flat-vector column holding `mAccs[trial].col(t)(i)`: acceleration
columns sit `2·dofs` after the position columns of the same interleaved
timestep block. -/
def aFlatCol (dofs base t i : ℕ) : ℕ := base + dofs * 3 * t + dofs * 2 + i

/-- One trial's sparse-Jacobian rows as the claim reads them: for every
acceleration timestep `t` and dof `i`, a velocity-consistency row with
`+1` on the column of `q_t(i)`, `−1` on the column of `q_{t+1}(i)` and
the trial's `dt` on the column of `v_t(i)` (the derivative the constraint
relates); then an acceleration-consistency row with `+1` on `v_t(i)`,
`−1` on `v_{t+1}(i)`, `dt` on `a_t(i)`; after the loop, one trailing row
per dof with `+1` on `q_{accCols}(i)`, `−1` on `q_{accCols+1}(i)`, `dt`
on `v_{accCols}(i)`.  Rows are numbered consecutively in emission
order. -/
def specTrialRows (dofs k base rowStart : ℕ) (dt : s_t) : List Triple :=
  ((List.range k).map (fun t =>
    ((List.range dofs).map (fun i =>
        [(rowStart + dofs * 2 * t + i, qFlatCol dofs k base t i, (1 : s_t)),
         (rowStart + dofs * 2 * t + i, qFlatCol dofs k base (t + 1) i, (-1 : s_t)),
         (rowStart + dofs * 2 * t + i, vFlatCol dofs base t i, dt)])).flatten
    ++ ((List.range dofs).map (fun i =>
        [(rowStart + dofs * 2 * t + dofs + i, vFlatCol dofs base t i, (1 : s_t)),
         (rowStart + dofs * 2 * t + dofs + i, vFlatCol dofs base (t + 1) i, (-1 : s_t)),
         (rowStart + dofs * 2 * t + dofs + i, aFlatCol dofs base t i, dt)])).flatten)).flatten
  ++ ((List.range dofs).map (fun i =>
      [(rowStart + dofs * 2 * k + i, qFlatCol dofs k base k i, (1 : s_t)),
       (rowStart + dofs * 2 * k + i, qFlatCol dofs k base (k + 1) i, (-1 : s_t)),
       (rowStart + dofs * 2 * k + i, vFlatCol dofs base k i, dt)])).flatten

/-- The claim's reading of the whole sparse Jacobian: each trial's rows in
order, each trial's block of the flat vector starting where the previous
trial's footprint ends, each row carrying its own trial's `dt`. -/
def specTrials (dofs : ℕ) : List (s_t × ℕ) → ℕ → ℕ → List Triple
  | [], _, _ => []
  | (dt, k) :: rest, base, rowStart =>
    specTrialRows dofs k base rowStart dt
      ++ specTrials dofs rest (base + (k * dofs * 3 + dofs * 3))
          (rowStart + (dofs * 2 * k + dofs))

/-- The sparse constraints Jacobian as the claim reads it, with columns
named by the flat layout positions of the state entries each constraint
differentiates. -/
def sparseJacobianSpec (c : ProblemConfig) (s : ProblemState) : List Triple :=
  if c.includePoses then
    specTrials c.dofs (s.trials.map (fun tr => (tr.dt, tr.accs.length)))
      (nonPoseDim c s) 0
  else []

/-!
### DynamicsFitter::estimateFootGroundContacts

The per-frame force-active / sphere-contact / off-plate logic
(lines 2752-2853).  World positions of contact bodies (with the skeleton
posed at frame `t`) and the external convex-footprint containment tests
are opaque fields.
-/

/-- Inputs of the per-frame contact scan for one trial.  `wrench t b` is
`grfTrials[trial].col(t).segment<6>(b*6)`; `worldPos t b c` is contact
body `c` of GRF body `b` with the skeleton posed at frame `t`;
`plateContains`/`defaultContains` are `math::convex2DShapeContains` on a
plate's corners and on the synthesized default plate. -/
structure ContactTrialModel where
  numGrfBodies : ℕ
  numContactBodies : ℕ → ℕ
  wrench : ℕ → ℕ → List s_t
  worldPos : ℕ → ℕ → ℕ → s_t × s_t × s_t
  sphereRadius : ℕ → ℕ → s_t
  groundHeight : s_t
  numPlates : ℕ
  plateHasCorners : ℕ → Bool
  plateContains : ℕ → s_t × s_t × s_t → Bool
  hasDefaultPlate : Bool
  defaultContains : s_t × s_t × s_t → Bool

/-- Line 2763-2765: a GRF body is force-active at a frame when its
measured wrench has `squaredNorm() > 1e-3`. -/
def forceActive (m : ContactTrialModel) (t b : ℕ) : Bool :=
  decide (sqNorm (m.wrench t b) > 1 / 1000)

/-- Lines 2770-2781: some contact sphere of GRF body `b` predicts ground
contact (height above ground below the sphere's grown radius). -/
def sphereInContact (m : ContactTrialModel) (t b : ℕ) : Bool :=
  (List.range (m.numContactBodies b)).any (fun c =>
    decide ((m.worldPos t b c).2.1 - m.groundHeight < m.sphereRadius b c))

/-- Lines 2792-2829: contact body `c` lies inside some force plate that
has corner geometry, or inside the synthesized default plate when one
exists. -/
def bodyInAnyPlate (m : ContactTrialModel) (t b c : ℕ) : Bool :=
  ((List.range m.numPlates).any (fun p =>
      m.plateHasCorners p && m.plateContains p (m.worldPos t b c)))
  || (m.hasDefaultPlate && m.defaultContains (m.worldPos t b c))

/-- Lines 2787-2838: a GRF body's contact is suspicious when a sphere
predicts contact, no force is measured, and no contact body is over any
plate. -/
def contactIsSus (m : ContactTrialModel) (t b : ℕ) : Bool :=
  sphereInContact m t b && !forceActive m t b
    && !((List.range (m.numContactBodies b)).any (fun c => bodyInAnyPlate m t b c))

/-- Lines 2759-2852: `probablyMissingGRF[trial][t]` is set when any GRF
body's contact at frame `t` is suspicious. -/
def probablyMissingGRF (m : ContactTrialModel) (t : ℕ) : Bool :=
  (List.range m.numGrfBodies).any (fun b => contactIsSus m t b)

/-!
### DynamicsFitter::runOptimization weight configuration

Lines 3196-3208: a fresh `DynamicsFitProblem` (constructor defaults,
lines 326-343) has its residual and marker weights set from the caller's
arguments, squared unless the corresponding L1 flag is set.
-/

/-- The builder-settable problem settings relevant to `runOptimization`,
mirroring the `DynamicsFitProblem` members they configure. -/
structure FitProblemSettings where
  residualWeight : s_t
  markerWeight : s_t
  jointWeight : s_t
  residualUseL1 : Bool
  markerUseL1 : Bool
  includeMasses : Bool
  includeCOMs : Bool
  includeInertias : Bool
  includeBodyScales : Bool
  includePoses : Bool
  includeMarkerOffsets : Bool
deriving DecidableEq

/-- Constructor defaults of `DynamicsFitProblem` (lines 326-343):
all inclusion flags true, `mResidualWeight = 0.1`, `mMarkerWeight = 1`,
`mJointWeight = 1`, both L1 flags false. -/
def defaultProblemSettings : FitProblemSettings :=
  { residualWeight := 1 / 10
    markerWeight := 1
    jointWeight := 1
    residualUseL1 := false
    markerUseL1 := false
    includeMasses := true
    includeCOMs := true
    includeInertias := true
    includeBodyScales := true
    includePoses := true
    includeMarkerOffsets := true }

/-- The weight-setting step of `runOptimization` (lines 3198-3202):
`setResidualWeight(mResidualUseL1 ? w : w*w)` and
`setMarkerWeight(mMarkerUseL1 ? w : w*w)`. -/
def applyRunWeights (p : FitProblemSettings) (residualWeight markerWeight : s_t) :
    FitProblemSettings :=
  { p with
    residualWeight :=
      if p.residualUseL1 then residualWeight else residualWeight * residualWeight
    markerWeight :=
      if p.markerUseL1 then markerWeight else markerWeight * markerWeight }

/-- The problem configuration `runOptimization` builds (lines 3196-3208):
a freshly-constructed problem (defaults), weights applied, then the
caller's inclusion flags. -/
def runOptimizationSetup (residualWeight markerWeight : s_t)
    (includeMasses includeCOMs includeInertias includeBodyScales
      includePoses includeMarkerOffsets : Bool) : FitProblemSettings :=
  let p := applyRunWeights defaultProblemSettings residualWeight markerWeight
  { p with
    includeMasses := includeMasses
    includeCOMs := includeCOMs
    includeInertias := includeInertias
    includeBodyScales := includeBodyScales
    includePoses := includePoses
    includeMarkerOffsets := includeMarkerOffsets }

/-!
### Concrete instances used to witness the theorems
-/

/-- A problem configuration with every variable group included. -/
def cw1 : ProblemConfig := ⟨1, 2, 1, true, true, true, true, true, true⟩

/-- A wellformed one-trial state for `cw1`. -/
def sw1 : ProblemState :=
  { skel := { groupMasses := [2], groupCOMs := [0, 0, 0],
              groupInertias := [1, 1, 1, 1, 1, 1], groupScales := [3, 4] },
    markerOffsets := [[5, 6, 7]],
    trials := [{ dt := 1 / 100, poses := [[1], [2], [3]],
                 vels := [[10], [20]], accs := [[100]] }] }

/-- A flat vector of length `getProblemSize cw1 sw1 = 21`. -/
def xw1 : List s_t := (List.range 21).map (fun i => (i : s_t))

/-- Pose-only configuration exhibiting the constraint-size mismatch. -/
def c3bug : ProblemConfig := ⟨0, 0, 1, false, false, false, false, false, true⟩

/-- Two trials with one acceleration column each (`dofs = 1`). -/
def s3bug : ProblemState :=
  { skel := ⟨[], [], [], []⟩, markerOffsets := [],
    trials := [⟨1, [[0], [0], [0]], [[0], [0]], [[0]]⟩,
               ⟨1, [[0], [0], [0]], [[0], [0]], [[0]]⟩] }

/-- A trivial instantiation of the external dynamics primitives. -/
def m5triv : DynModel :=
  { ndofs := 1
    numForces := 0
    massMatrix := fun _ => [[1]]
    coriolis := fun _ _ => [0]
    computeTau := fun _ _ _ => [0]
    wrtDim := fun _ => 1
    jacobianOfM := fun _ _ _ => [[0]]
    jacobianOfC := fun _ _ _ => [[0]]
    jacobianOfTauWrt := fun _ _ _ _ => [[0]]
    fdResidualJac := fun _ _ _ _ _ => [[0]]
    fdNormGrad := fun _ _ _ _ _ _ => [0]
    vecNorm := fun _ => 0
    vecNormalize := fun v => v }

/-- A skeleton state whose velocities and accelerations differ. -/
def st5 : SkelDyn := ⟨[0], [1], [2]⟩

/-- Loss model with unit residual weight and unit residual norms, whose
single trial has its second acceleration timestep flagged
`probablyMissingGRF`. -/
def m6 : LossModel :=
  { numScaleGroups := 0
    residualWeight := 1
    markerWeight := 0
    jointWeight := 0
    regularizeMasses := 0
    regularizeCOMs := 0
    regularizeInertias := 0
    regularizeBodyScales := 0
    regularizeTrackingMarkerOffsets := 0
    regularizeAnatomicalMarkerOffsets := 0
    regularizePoses := 0
    markerIsTracking := []
    originalGroupMasses := []
    originalGroupCOMs := []
    originalGroupInertias := []
    originalGroupScales := []
    hasOriginalMarkerOffset := []
    originalMarkerOffsets := []
    originalPoses := []
    probablyMissingGRF := [[false, true]]
    observed := fun _ _ _ => false
    markerCost := fun _ _ _ => 0
    jointTerm := fun _ _ => 0
    axisTerm := fun _ _ => 0
    resNorm := fun _ _ => 1 }

/-- One trial with four pose columns and two acceleration columns. -/
def s6 : ProblemState :=
  { skel := ⟨[], [], [], []⟩, markerOffsets := [],
    trials := [⟨1, [[0], [0], [0], [0]], [[0], [0], [0]], [[0], [0]]⟩] }

/-- Loss model used to witness the fatal-precondition guard. -/
def m8 : LossModel :=
  { m6 with probablyMissingGRF := [] }

/-- One-trial state used to witness the fatal-precondition guard. -/
def s8 : ProblemState :=
  { skel := ⟨[], [], [], []⟩, markerOffsets := [],
    trials := [⟨1, [[0], [0]], [[0]], []⟩] }

/-- Pose-only single-trial configuration for the sparse-Jacobian witness. -/
def c7w : ProblemConfig := ⟨0, 0, 1, false, false, false, false, false, true⟩

/-- One trial with one acceleration column (`dofs = 1`, `dt = 1`). -/
def s7w : ProblemState :=
  { skel := ⟨[], [], [], []⟩, markerOffsets := [],
    trials := [⟨1, [[1], [2], [3]], [[10], [20]], [[100]]⟩] }

/-- Contact-scan inputs: one GRF body with one contact body, zero
measured wrench, a grown contact sphere that predicts contact, and no
plate (with or without corners) containing the body. -/
def m9 : ContactTrialModel :=
  { numGrfBodies := 1
    numContactBodies := fun _ => 1
    wrench := fun _ _ => [0, 0, 0, 0, 0, 0]
    worldPos := fun _ _ _ => (0, 0, 0)
    sphereRadius := fun _ _ => 1
    groundHeight := 0
    numPlates := 0
    plateHasCorners := fun _ => false
    plateContains := fun _ _ => false
    hasDefaultPlate := false
    defaultContains := fun _ => false }

/-!
### Supporting lemmas: flatten/unflatten round trip
-/

lemma getD_append_add {α : Type} (l rest : List α) (j : ℕ) (d : α) :
    (l ++ rest).getD (l.length + j) d = rest.getD j d := by
  induction l with
  | nil => simp
  | cons a as ih =>
    simp only [List.cons_append, List.length_cons]
    rw [show as.length + 1 + j = (as.length + j) + 1 by omega]
    rw [List.getD_cons_succ]
    exact ih

lemma parseMarkers_flatten (n : ℕ) (x : List s_t) :
    (parseMarkers n x).1.flatten ++ (parseMarkers n x).2 = x := by
  induction n generalizing x with
  | zero => simp [parseMarkers]
  | succ k ih =>
    simp only [parseMarkers, List.flatten_cons, List.append_assoc]
    rw [ih (x.drop 3)]
    exact List.take_append_drop 3 x

lemma parseMarkers_drop (n : ℕ) (x : List s_t) :
    (parseMarkers n x).2 = x.drop (n * 3) := by
  induction n generalizing x with
  | zero => simp [parseMarkers]
  | succ k ih =>
    simp only [parseMarkers]
    rw [ih (x.drop 3), List.drop_drop]
    congr 1
    omega

lemma parseTriples_len (dofs k : ℕ) (x : List s_t) :
    (parseTriples dofs k x).1.length = k ∧
    (parseTriples dofs k x).2.1.length = k ∧
    (parseTriples dofs k x).2.2.1.length = k := by
  induction k generalizing x with
  | zero => simp [parseTriples]
  | succ j ih =>
    simp only [parseTriples, List.length_cons]
    exact ⟨by rw [(ih _).1], by rw [(ih _).2.1], by rw [(ih _).2.2]⟩

lemma flattenTriples_cons (q v a : List s_t) (qs vs as2 : List (List s_t)) :
    flattenTriples (q :: qs) (v :: vs) (a :: as2)
      = q ++ v ++ a ++ flattenTriples qs vs as2 := by
  rfl

lemma flattenTriples_nil_accs (qs vs : List (List s_t)) :
    flattenTriples qs vs [] = [] := by
  cases qs <;> cases vs <;> rfl

lemma parseTriples_flatten (dofs k : ℕ) (x : List s_t) :
    flattenTriples (parseTriples dofs k x).1 (parseTriples dofs k x).2.1
        (parseTriples dofs k x).2.2.1
      ++ (parseTriples dofs k x).2.2.2 = x := by
  induction k generalizing x with
  | zero => simp [parseTriples, flattenTriples]
  | succ j ih =>
    simp only [parseTriples, flattenTriples_cons, List.append_assoc]
    rw [ih (((x.drop dofs).drop dofs).drop dofs)]
    rw [List.take_append_drop, List.take_append_drop, List.take_append_drop]

lemma parseTriples_drop (dofs k : ℕ) (x : List s_t) :
    (parseTriples dofs k x).2.2.2 = x.drop (k * (dofs * 3)) := by
  induction k generalizing x with
  | zero => simp [parseTriples]
  | succ j ih =>
    simp only [parseTriples]
    rw [ih (((x.drop dofs).drop dofs).drop dofs)]
    rw [List.drop_drop, List.drop_drop, List.drop_drop]
    congr 1
    ring

lemma flattenTriples_append_extra (as2 qs vs qe ve : List (List s_t))
    (hq : as2.length ≤ qs.length) (hv : as2.length ≤ vs.length) :
    flattenTriples (qs ++ qe) (vs ++ ve) as2 = flattenTriples qs vs as2 := by
  induction as2 generalizing qs vs with
  | nil => rw [flattenTriples_nil_accs, flattenTriples_nil_accs]
  | cons a rest ih =>
    match qs, vs with
    | q :: qs2, v :: vs2 =>
      simp only [List.cons_append, flattenTriples_cons]
      rw [ih qs2 vs2 (by simpa using hq) (by simpa using hv)]

lemma flattenTrial_parseTrial (dofs accCols : ℕ) (dt : s_t) (x : List s_t) :
    flattenTrial (parseTrial dofs accCols dt x).1
      ++ (parseTrial dofs accCols dt x).2 = x := by
  have hlen := parseTriples_len dofs accCols x
  simp only [parseTrial, flattenTrial]
  rw [show ((parseTriples dofs accCols x).2.2.1.length)
        = (parseTriples dofs accCols x).1.length by rw [hlen.1, hlen.2.2]]
  rw [flattenTriples_append_extra _ _ _ _ _
        (le_of_eq (by rw [hlen.1, hlen.2.2])) (by rw [hlen.2.1, hlen.2.2])]
  rw [show (parseTriples dofs accCols x).1.length
        = (parseTriples dofs accCols x).1.length + 0 by omega]
  rw [getD_append_add]
  rw [show (parseTriples dofs accCols x).1.length + 0 + 1
        = (parseTriples dofs accCols x).1.length + 1 by omega]
  rw [getD_append_add]
  rw [show (parseTriples dofs accCols x).1.length + 0
        = (parseTriples dofs accCols x).2.1.length + 0 by rw [hlen.1, hlen.2.1]]
  rw [getD_append_add]
  simp only [List.getD_cons_zero, List.getD_cons_succ, List.append_assoc]
  rw [List.take_append_drop, List.take_append_drop, List.take_append_drop]
  exact parseTriples_flatten dofs accCols x

lemma parseTrial_drop (dofs accCols : ℕ) (dt : s_t) (x : List s_t) :
    (parseTrial dofs accCols dt x).2 = x.drop (accCols * dofs * 3 + dofs * 3) := by
  simp only [parseTrial]
  rw [List.drop_drop, List.drop_drop, parseTriples_drop]
  rw [List.drop_drop]
  congr 1
  ring

lemma parseTrials_flatten (dofs : ℕ) (trs : List TrialData) (x : List s_t) :
    ((parseTrials dofs trs x).1.map flattenTrial).flatten
      ++ (parseTrials dofs trs x).2 = x := by
  induction trs generalizing x with
  | nil => simp [parseTrials]
  | cons tr rest ih =>
    simp only [parseTrials, List.map_cons, List.flatten_cons, List.append_assoc]
    rw [ih]
    exact flattenTrial_parseTrial dofs tr.accs.length tr.dt x

lemma parseTrials_drop (dofs : ℕ) (trs : List TrialData) (x : List s_t) :
    (parseTrials dofs trs x).2 = x.drop ((trs.map (trialPoseSize dofs)).sum) := by
  induction trs generalizing x with
  | nil => simp [parseTrials]
  | cons tr rest ih =>
    simp only [parseTrials, List.map_cons, List.sum_cons]
    rw [ih, parseTrial_drop, List.drop_drop]
    congr 1

lemma unflatten_flatten_chain (c : ProblemConfig) (s : ProblemState) (x : List s_t) :
    flatten c (unflatten c s x) ++ x.drop (getProblemSize c s) = x := by
  obtain ⟨nsg, gsd, dofs, im, ic, ii, ib, imo, ip⟩ := c
  obtain ⟨sk, mo, trs⟩ := s
  simp only [flatten, unflatten, getProblemSize, List.append_assoc]
  set y1 := List.drop (if im = true then nsg else 0) x with hy1
  set y2 := List.drop (if ic = true then nsg * 3 else 0) y1 with hy2
  set y3 := List.drop (if ii = true then nsg * 6 else 0) y2 with hy3
  set y4 := List.drop (if ib = true then gsd else 0) y3 with hy4
  set mk := (if imo = true then parseMarkers mo.length y4 else (mo, y4)) with hmk
  have hmk2 : mk.2 = List.drop (if imo = true then mo.length * 3 else 0) y4 := by
    rw [hmk]
    cases imo
    · simp
    · simp [parseMarkers_drop]
  rw [hmk2]
  set y5 := List.drop (if imo = true then mo.length * 3 else 0) y4 with hy5
  have htail :
      List.drop
        ((((((if im = true then nsg else 0) + if ic = true then nsg * 3 else 0) +
              if ii = true then nsg * 6 else 0) + if ib = true then gsd else 0) +
            if imo = true then mo.length * 3 else 0) +
          if ip = true then (List.map (trialPoseSize dofs) trs).sum else 0) x
      = List.drop (if ip = true then (List.map (trialPoseSize dofs) trs).sum else 0) y5 := by
    rw [hy5, hy4, hy3, hy2, hy1]
    simp only [List.drop_drop]
  rw [htail]
  have htr :
      (if ip = true then
          (List.map flattenTrial (if ip = true then (parseTrials dofs trs y5).1 else trs)).flatten
        else [])
        ++ List.drop (if ip = true then (List.map (trialPoseSize dofs) trs).sum else 0) y5 = y5 := by
    cases ip
    · simp
    · show (List.map flattenTrial (parseTrials dofs trs y5).1).flatten
          ++ List.drop ((List.map (trialPoseSize dofs) trs).sum) y5 = y5
      rw [← parseTrials_drop]
      exact parseTrials_flatten dofs trs y5
  rw [htr]
  have hm : (if imo = true then mk.1.flatten else []) ++ y5 = y4 := by
    rw [hy5, hmk]
    cases imo
    · simp
    · show (parseMarkers mo.length y4).1.flatten ++ List.drop (mo.length * 3) y4 = y4
      rw [← parseMarkers_drop]
      exact parseMarkers_flatten mo.length y4
  rw [hm]
  have h4 : (if ib = true then if ib = true then List.take gsd y3 else sk.groupScales else [])
      ++ y4 = y3 := by
    rw [hy4]
    cases ib <;> simp
  rw [h4]
  have h3 : (if ii = true then if ii = true then List.take (nsg * 6) y2 else sk.groupInertias else [])
      ++ y3 = y2 := by
    rw [hy3]
    cases ii <;> simp
  rw [h3]
  have h2 : (if ic = true then if ic = true then List.take (nsg * 3) y1 else sk.groupCOMs else [])
      ++ y2 = y1 := by
    rw [hy2]
    cases ic <;> simp
  rw [h2]
  have h1 : (if im = true then if im = true then List.take nsg x else sk.groupMasses else [])
      ++ y1 = x := by
    rw [hy1]
    cases im <;> simp
  rw [h1]

lemma flatten3_length (L : List (List s_t)) (h : ∀ o ∈ L, o.length = 3) :
    L.flatten.length = L.length * 3 := by
  induction L with
  | nil => simp
  | cons a rest ih =>
    simp only [List.flatten_cons, List.length_append, List.length_cons]
    rw [h a (by simp), ih (fun o ho => h o (List.mem_cons_of_mem a ho))]
    ring

lemma flattenTriples_length (dofs : ℕ) (as2 : List (List s_t)) :
    ∀ (qs vs : List (List s_t)),
      qs.length = as2.length + 2 → vs.length = as2.length + 1 →
      (∀ p ∈ qs, p.length = dofs) → (∀ v ∈ vs, v.length = dofs) →
      (∀ a ∈ as2, a.length = dofs) →
      (flattenTriples qs vs as2).length = as2.length * (dofs * 3) := by
  induction as2 with
  | nil =>
    intro qs vs _ _ _ _ _
    rw [flattenTriples_nil_accs]
    simp
  | cons a rest ih =>
    intro qs vs hq hv hpq hpv hpa
    cases qs with
    | nil => simp at hq
    | cons q qs2 =>
      cases vs with
      | nil => simp at hv
      | cons v vs2 =>
        rw [flattenTriples_cons]
        simp only [List.length_append, List.length_cons]
        rw [hpq q (by simp), hpv v (by simp), hpa a (by simp),
          ih qs2 vs2 (by simpa using hq) (by simpa using hv)
            (fun p hp => hpq p (List.mem_cons_of_mem q hp))
            (fun w hw => hpv w (List.mem_cons_of_mem v hw))
            (fun b hb => hpa b (List.mem_cons_of_mem a hb))]
        ring

lemma getD_length_of_all (l : List (List s_t)) (n dofs : ℕ) (hn : n < l.length)
    (h : ∀ p ∈ l, p.length = dofs) : (l.getD n []).length = dofs := by
  rw [List.getD_eq_getElem l [] hn]
  exact h _ (List.getElem_mem hn)

lemma flattenTrial_length (dofs : ℕ) (tr : TrialData)
    (h1 : tr.poses.length = tr.accs.length + 2)
    (h2 : tr.vels.length = tr.accs.length + 1)
    (hp : ∀ p ∈ tr.poses, p.length = dofs)
    (hv : ∀ v ∈ tr.vels, v.length = dofs)
    (ha : ∀ a ∈ tr.accs, a.length = dofs) :
    (flattenTrial tr).length = trialPoseSize dofs tr := by
  simp only [flattenTrial, trialPoseSize, List.length_append]
  rw [flattenTriples_length dofs tr.accs tr.poses tr.vels h1 h2 hp hv ha]
  rw [getD_length_of_all tr.poses tr.accs.length dofs (by omega) hp]
  rw [getD_length_of_all tr.vels tr.accs.length dofs (by omega) hv]
  rw [getD_length_of_all tr.poses (tr.accs.length + 1) dofs (by omega) hp]
  ring

lemma flatten_length (c : ProblemConfig) (s : ProblemState) (h : WF c s) :
    (flatten c s).length = getProblemSize c s := by
  obtain ⟨h1, h2, h3, h4, h5, h6⟩ := h
  have e1 : (if c.includeMasses then s.skel.groupMasses else []).length
      = (if c.includeMasses then c.numScaleGroups else 0) := by
    cases c.includeMasses <;> simp [h1]
  have e2 : (if c.includeCOMs then s.skel.groupCOMs else []).length
      = (if c.includeCOMs then c.numScaleGroups * 3 else 0) := by
    cases c.includeCOMs <;> simp [h2]
  have e3 : (if c.includeInertias then s.skel.groupInertias else []).length
      = (if c.includeInertias then c.numScaleGroups * 6 else 0) := by
    cases c.includeInertias <;> simp [h3]
  have e4 : (if c.includeBodyScales then s.skel.groupScales else []).length
      = (if c.includeBodyScales then c.groupScaleDim else 0) := by
    cases c.includeBodyScales <;> simp [h4]
  have e5 : (if c.includeMarkerOffsets then s.markerOffsets.flatten else []).length
      = (if c.includeMarkerOffsets then s.markerOffsets.length * 3 else 0) := by
    cases c.includeMarkerOffsets <;> simp [flatten3_length s.markerOffsets h5]
  have e6 : (if c.includePoses then (s.trials.map flattenTrial).flatten else []).length
      = (if c.includePoses then (s.trials.map (trialPoseSize c.dofs)).sum else 0) := by
    cases c.includePoses
    · simp
    · show ((s.trials.map flattenTrial).flatten).length
          = (s.trials.map (trialPoseSize c.dofs)).sum
      rw [List.length_flatten, List.map_map]
      congr 1
      apply List.map_congr_left
      intro tr htr
      obtain ⟨t1, t2, t3, t4, t5⟩ := h6 tr htr
      exact flattenTrial_length c.dofs tr t1 t2 t3 t4 t5
  simp only [flatten, getProblemSize, List.length_append]
  omega

/-!
### Supporting lemmas: loss sums
-/

lemma lsum_zero (f : ℕ → s_t) : lsum 0 f = 0 := rfl

lemma lsum_succ (n : ℕ) (f : ℕ → s_t) : lsum (n + 1) f = lsum n f + f n := by
  simp [lsum, List.range_succ]

lemma lsum_congr_below (n : ℕ) (f g : ℕ → s_t) (h : ∀ i < n, f i = g i) :
    lsum n f = lsum n g := by
  induction n with
  | zero => rfl
  | succ k ih =>
    rw [lsum_succ, lsum_succ, h k (by omega),
      ih (fun i hi => h i (by omega))]

lemma lsum_mul_left (c : s_t) (n : ℕ) (f : ℕ → s_t) :
    lsum n (fun i => c * f i) = c * lsum n f := by
  induction n with
  | zero => simp [lsum_zero]
  | succ k ih => rw [lsum_succ, lsum_succ, ih]; ring

lemma lsum_ext_zero (mN n : ℕ) (f : ℕ → s_t) (hmn : mN ≤ n)
    (h0 : ∀ t, mN ≤ t → f t = 0) : lsum n f = lsum mN f := by
  induction n with
  | zero =>
    have : mN = 0 := by omega
    rw [this]
  | succ k ih =>
    rcases Nat.lt_or_ge mN (k + 1) with hlt | hge
    · rw [lsum_succ, ih (by omega), h0 k (by omega), add_zero]
    · have : mN = k + 1 := by omega
      rw [this]

/-!
### Supporting lemmas: sparse constraints Jacobian
-/

lemma filterRow_append (r : ℕ) (a b : List Triple) :
    filterRow r (a ++ b) = filterRow r a ++ filterRow r b :=
  List.filter_append ..

lemma filterRow_eq_self (r : ℕ) (l : List Triple) (h : ∀ tr ∈ l, tr.1 = r) :
    filterRow r l = l := by
  apply List.filter_eq_self.mpr
  intro tr htr
  simp [h tr htr]

lemma filterRow_eq_nil (r : ℕ) (l : List Triple) (h : ∀ tr ∈ l, tr.1 ≠ r) :
    filterRow r l = [] := by
  rw [filterRow, List.filter_eq_nil_iff]
  intro tr htr
  simp [h tr htr]

lemma filterRow_flatten_blocks (g : ℕ → List Triple) (n base r : ℕ)
    (hg : ∀ i, i < n → ∀ tr ∈ g i, tr.1 = base + i) :
    filterRow r (((List.range n).map g).flatten)
      = if base ≤ r ∧ r < base + n then g (r - base) else [] := by
  induction n with
  | zero =>
    rw [if_neg (by omega)]
    rfl
  | succ k ih =>
    rw [List.range_succ, List.map_append, List.flatten_append, filterRow_append,
      ih (fun i hi tr htr => hg i (by omega) tr htr)]
    simp only [List.map_cons, List.map_nil, List.flatten_cons, List.flatten_nil,
      List.append_nil]
    by_cases h1 : base ≤ r ∧ r < base + k
    · rw [if_pos h1, if_pos (by omega),
        filterRow_eq_nil r (g k) (fun tr htr => by rw [hg k (by omega) tr htr]; omega)]
      simp
    · rw [if_neg h1]
      by_cases h2 : r = base + k
      · rw [filterRow_eq_self r (g k) (fun tr htr => by rw [hg k (by omega) tr htr, h2]),
          if_pos (by omega), show r - base = k by omega]
        simp
      · rw [filterRow_eq_nil r (g k) (fun tr htr => by rw [hg k (by omega) tr htr]; omega),
          if_neg (by omega)]
        simp

lemma velRowBlock_rows (dofs colC rowC : ℕ) (dt : s_t) (i : ℕ) :
    ∀ tr ∈ velRowBlock dofs colC rowC dt i, tr.1 = rowC + i := by
  intro tr htr
  simp only [velRowBlock, List.mem_cons, List.not_mem_nil, or_false] at htr
  rcases htr with h | h | h <;> rw [h]

lemma accRowBlock_rows (dofs colC rowC : ℕ) (dt : s_t) (i : ℕ) :
    ∀ tr ∈ accRowBlock dofs colC rowC dt i, tr.1 = rowC + i := by
  intro tr htr
  simp only [accRowBlock, List.mem_cons, List.not_mem_nil, or_false] at htr
  rcases htr with h | h | h <;> rw [h]

lemma lastRowBlock_rows (dofs colC rowC : ℕ) (dt : s_t) (i : ℕ) :
    ∀ tr ∈ lastRowBlock dofs colC rowC dt i, tr.1 = rowC + i := by
  intro tr htr
  simp only [lastRowBlock, List.mem_cons, List.not_mem_nil, or_false] at htr
  rcases htr with h | h | h <;> rw [h]

lemma filterRow_timestepTriples (dofs colC rowC : ℕ) (dt : s_t) (r : ℕ) :
    filterRow r (timestepTriples dofs colC rowC dt)
      = if rowC ≤ r ∧ r < rowC + dofs then velRowBlock dofs colC rowC dt (r - rowC)
        else if rowC + dofs ≤ r ∧ r < rowC + dofs + dofs then
          accRowBlock dofs colC (rowC + dofs) dt (r - (rowC + dofs))
        else [] := by
  unfold timestepTriples
  rw [filterRow_append,
    filterRow_flatten_blocks _ dofs rowC r (fun i _ => velRowBlock_rows dofs colC rowC dt i),
    filterRow_flatten_blocks _ dofs (rowC + dofs) r
      (fun i _ => accRowBlock_rows dofs colC (rowC + dofs) dt i)]
  by_cases h1 : rowC ≤ r ∧ r < rowC + dofs
  · have h2 : ¬(rowC + dofs ≤ r ∧ r < rowC + dofs + dofs) := by omega
    simp only [if_pos h1, if_neg h2, List.append_nil]
  · by_cases h2 : rowC + dofs ≤ r ∧ r < rowC + dofs + dofs
    · simp only [if_neg h1, if_pos h2, List.nil_append]
    · simp only [if_neg h1, if_neg h2, List.append_nil]

lemma timestepTriples_row_bound (dofs colC rowC : ℕ) (dt : s_t) :
    ∀ tr ∈ timestepTriples dofs colC rowC dt,
      rowC ≤ tr.1 ∧ tr.1 < rowC + dofs * 2 := by
  intro tr htr
  unfold timestepTriples at htr
  rcases List.mem_append.mp htr with h | h
  · obtain ⟨blk, hblk, htrblk⟩ := List.mem_flatten.mp h
    obtain ⟨i, hi, rfl⟩ := List.mem_map.mp hblk
    have hrow := velRowBlock_rows dofs colC rowC dt i tr htrblk
    have hi2 := List.mem_range.mp hi
    omega
  · obtain ⟨blk, hblk, htrblk⟩ := List.mem_flatten.mp h
    obtain ⟨i, hi, rfl⟩ := List.mem_map.mp hblk
    have hrow := accRowBlock_rows dofs colC (rowC + dofs) dt i tr htrblk
    have hi2 := List.mem_range.mp hi
    omega

lemma trialTriples_row_bound (dofs : ℕ) (dt : s_t) :
    ∀ (k colC rowC : ℕ), ∀ tr ∈ trialTriples dofs dt k colC rowC,
      rowC ≤ tr.1 ∧ tr.1 < rowC + (dofs * 2 * k + dofs) := by
  intro k
  induction k with
  | zero =>
    intro colC rowC tr htr
    have heq : trialTriples dofs dt 0 colC rowC
        = ((List.range dofs).map (lastRowBlock dofs colC rowC dt)).flatten := rfl
    rw [heq] at htr
    obtain ⟨blk, hblk, htrblk⟩ := List.mem_flatten.mp htr
    obtain ⟨i, hi, rfl⟩ := List.mem_map.mp hblk
    have hrow := lastRowBlock_rows dofs colC rowC dt i tr htrblk
    have hi2 := List.mem_range.mp hi
    omega
  | succ j ih =>
    intro colC rowC tr htr
    have heq : trialTriples dofs dt (j + 1) colC rowC
        = timestepTriples dofs colC rowC dt
          ++ trialTriples dofs dt j (colC + dofs * 3) (rowC + dofs * 2) := rfl
    rw [heq] at htr
    have hexp : dofs * 2 * (j + 1) = dofs * 2 * j + dofs * 2 := by ring
    rcases List.mem_append.mp htr with h | h
    · have := timestepTriples_row_bound dofs colC rowC dt tr h
      omega
    · have := ih (colC + dofs * 3) (rowC + dofs * 2) tr h
      omega

lemma filterRow_trialTriples (dofs : ℕ) (dt : s_t) :
    ∀ (k colC rowC r : ℕ), rowC ≤ r → r < rowC + (dofs * 2 * k + dofs) →
      ∃ c1 c2 c3, c1 ≠ c2 ∧ c1 ≠ c3 ∧ c2 ≠ c3 ∧
        filterRow r (trialTriples dofs dt k colC rowC)
          = [(r, c1, 1), (r, c2, -1), (r, c3, dt)] := by
  intro k
  induction k with
  | zero =>
    intro colC rowC r h1 h2
    have hblocks : filterRow r (trialTriples dofs dt 0 colC rowC)
        = lastRowBlock dofs colC rowC dt (r - rowC) := by
      have heq : trialTriples dofs dt 0 colC rowC
          = ((List.range dofs).map (lastRowBlock dofs colC rowC dt)).flatten := rfl
      rw [heq,
        filterRow_flatten_blocks _ dofs rowC r
          (fun i _ => lastRowBlock_rows dofs colC rowC dt i),
        if_pos (by omega)]
    refine ⟨colC + (r - rowC), colC + dofs * 2 + (r - rowC), colC + dofs + (r - rowC),
      by omega, by omega, by omega, ?_⟩
    rw [hblocks]
    unfold lastRowBlock
    rw [show rowC + (r - rowC) = r by omega]
  | succ j ih =>
    intro colC rowC r h1 h2
    have heq : trialTriples dofs dt (j + 1) colC rowC
        = timestepTriples dofs colC rowC dt
          ++ trialTriples dofs dt j (colC + dofs * 3) (rowC + dofs * 2) := rfl
    have hexp : dofs * 2 * (j + 1) = dofs * 2 * j + dofs * 2 := by ring
    rw [heq, filterRow_append]
    by_cases hr : r < rowC + dofs * 2
    · rw [filterRow_eq_nil r
        (trialTriples dofs dt j (colC + dofs * 3) (rowC + dofs * 2))
        (fun tr htr => by
          have := trialTriples_row_bound dofs dt j (colC + dofs * 3) (rowC + dofs * 2) tr htr
          omega),
        List.append_nil, filterRow_timestepTriples]
      by_cases hv : r < rowC + dofs
      · rw [if_pos ⟨h1, hv⟩]
        refine ⟨colC + (r - rowC), colC + dofs * 3 + (r - rowC), colC + dofs + (r - rowC),
          by omega, by omega, by omega, ?_⟩
        unfold velRowBlock
        rw [show rowC + (r - rowC) = r by omega]
      · rw [if_neg (by omega), if_pos ⟨by omega, by omega⟩]
        refine ⟨colC + dofs + (r - (rowC + dofs)),
          colC + dofs * 3 + dofs + (r - (rowC + dofs)),
          colC + dofs * 2 + (r - (rowC + dofs)),
          by omega, by omega, by omega, ?_⟩
        unfold accRowBlock
        rw [show rowC + dofs + (r - (rowC + dofs)) = r by omega]
    · rw [filterRow_timestepTriples, if_neg (by omega), if_neg (by omega),
        List.nil_append]
      exact ih (colC + dofs * 3) (rowC + dofs * 2) r (by omega) (by omega)

lemma allTrialTriples_row_bound (dofs : ℕ) :
    ∀ (dts : List (s_t × ℕ)) (colC rowC : ℕ), ∀ tr ∈ allTrialTriples dofs dts colC rowC,
      rowC ≤ tr.1 ∧ tr.1 < rowC + rowSpan dofs dts := by
  intro dts
  induction dts with
  | nil =>
    intro colC rowC tr htr
    exact absurd htr (List.not_mem_nil tr)
  | cons p rest ih =>
    intro colC rowC tr htr
    obtain ⟨dtv, k⟩ := p
    have hspan : rowSpan dofs ((dtv, k) :: rest)
        = (dofs * 2 * k + dofs) + rowSpan dofs rest := by
      simp [rowSpan]
    have heq : allTrialTriples dofs ((dtv, k) :: rest) colC rowC
        = trialTriples dofs dtv k colC rowC
          ++ allTrialTriples dofs rest (colC + dofs * 3 * (k + 1))
              (rowC + (dofs * 2 * k + dofs)) := rfl
    rw [heq] at htr
    rcases List.mem_append.mp htr with h | h
    · have := trialTriples_row_bound dofs dtv k colC rowC tr h
      omega
    · have := ih (colC + dofs * 3 * (k + 1)) (rowC + (dofs * 2 * k + dofs)) tr h
      omega

lemma filterRow_allTrialTriples (dofs : ℕ) :
    ∀ (dts : List (s_t × ℕ)) (colC rowC r : ℕ), rowC ≤ r → r < rowC + rowSpan dofs dts →
      ∃ dt c1 c2 c3, dt ∈ dts.map Prod.fst ∧ c1 ≠ c2 ∧ c1 ≠ c3 ∧ c2 ≠ c3 ∧
        filterRow r (allTrialTriples dofs dts colC rowC)
          = [(r, c1, 1), (r, c2, -1), (r, c3, dt)] := by
  intro dts
  induction dts with
  | nil =>
    intro colC rowC r h1 h2
    rw [rowSpan] at h2
    simp at h2
    omega
  | cons p rest ih =>
    intro colC rowC r h1 h2
    obtain ⟨dtv, k⟩ := p
    have hspan : rowSpan dofs ((dtv, k) :: rest)
        = (dofs * 2 * k + dofs) + rowSpan dofs rest := by
      simp [rowSpan]
    have heq : allTrialTriples dofs ((dtv, k) :: rest) colC rowC
        = trialTriples dofs dtv k colC rowC
          ++ allTrialTriples dofs rest (colC + dofs * 3 * (k + 1))
              (rowC + (dofs * 2 * k + dofs)) := rfl
    rw [heq, filterRow_append]
    by_cases hr : r < rowC + (dofs * 2 * k + dofs)
    · obtain ⟨c1, c2, c3, d12, d13, d23, hfil⟩ :=
        filterRow_trialTriples dofs dtv k colC rowC r h1 hr
      rw [hfil,
        filterRow_eq_nil r _ (fun tr htr => by
          have := allTrialTriples_row_bound dofs rest (colC + dofs * 3 * (k + 1))
            (rowC + (dofs * 2 * k + dofs)) tr htr
          omega)]
      exact ⟨dtv, c1, c2, c3, by simp, d12, d13, d23, by simp⟩
    · rw [filterRow_eq_nil r _ (fun tr htr => by
        have := trialTriples_row_bound dofs dtv k colC rowC tr htr
        omega),
        List.nil_append]
      obtain ⟨dt0, c1, c2, c3, hdt, d12, d13, d23, hfil⟩ :=
        ih (colC + dofs * 3 * (k + 1)) (rowC + (dofs * 2 * k + dofs)) r
          (by omega) (by omega)
      refine ⟨dt0, c1, c2, c3, ?_, d12, d13, d23, hfil⟩
      simp only [List.map_cons]
      exact List.mem_cons_of_mem _ hdt

lemma denseFromTriples_append_single (l : List Triple) (t : Triple) (r col : ℕ) :
    denseFromTriples (l ++ [t]) r col
      = if r = t.1 ∧ col = t.2.1 then t.2.2 else denseFromTriples l r col := by
  unfold denseFromTriples
  rw [List.foldl_append]
  rfl

lemma filterKey_append (r col : ℕ) (a b : List Triple) :
    filterKey r col (a ++ b) = filterKey r col a ++ filterKey r col b :=
  List.filter_append ..

lemma dense_of_filterKey_nil (r col : ℕ) :
    ∀ l : List Triple, filterKey r col l = [] → denseFromTriples l r col = 0 := by
  intro l
  induction l using List.reverseRecOn with
  | nil => intro _; rfl
  | append_singleton l t ihl =>
    intro h
    rw [filterKey_append] at h
    obtain ⟨h1, h2⟩ := List.append_eq_nil.mp h
    rw [denseFromTriples_append_single, if_neg, ihl h1]
    intro hc
    have hp : (t.1 == r && t.2.1 == col) = true := by simp [hc.1, hc.2]
    rw [filterKey, List.filter_singleton, hp, cond_true] at h2
    exact absurd h2 (by simp)

lemma dense_of_filterKey_single (r col : ℕ) (v : s_t) :
    ∀ l : List Triple, filterKey r col l = [(r, col, v)] →
      denseFromTriples l r col = v := by
  intro l
  induction l using List.reverseRecOn with
  | nil => intro h; exact absurd h (by simp [filterKey])
  | append_singleton l t ihl =>
    intro h
    have hsingle : filterKey r col [t]
        = bif t.1 == r && t.2.1 == col then [t] else [] := by
      rw [filterKey, List.filter_singleton]
    rw [filterKey_append, hsingle] at h
    by_cases hp : (t.1 == r && t.2.1 == col) = true
    · rw [hp, cond_true] at h
      have hlen := congrArg List.length h
      simp only [List.length_append, List.length_cons, List.length_nil] at hlen
      have hnil : filterKey r col l = [] := List.length_eq_zero.mp (by omega)
      rw [hnil, List.nil_append] at h
      have ht : t = (r, col, v) := by
        simpa using h
      rw [denseFromTriples_append_single, if_pos ⟨by rw [ht], by rw [ht]⟩, ht]
    · rw [show (t.1 == r && t.2.1 == col) = false from by simpa using hp,
        cond_false, List.append_nil] at h
      rw [denseFromTriples_append_single, if_neg (fun hc => hp (by simp [hc.1, hc.2]))]
      exact ihl h

lemma filterKey_eq_filterRow_filter (r col : ℕ) (l : List Triple) :
    filterKey r col l = (filterRow r l).filter (fun tr => tr.2.1 == col) := by
  unfold filterKey filterRow
  rw [List.filter_filter]
  apply List.filter_congr
  intro tr _
  exact Bool.and_comm _ _

/-!
### Supporting lemmas: the emitted triples sit on the layout columns

The cursor-generated triples of `computeSparseConstraintsJacobian` equal
the claim's reading `sparseJacobianSpec`, whose columns are the
flat-layout positions `qFlatCol`/`vFlatCol`/`aFlatCol` of the entries the
constraints differentiate.
-/

lemma qFlatCol_succ_shift (dofs k base t i : ℕ) :
    qFlatCol dofs (k + 1) base (t + 1) i = qFlatCol dofs k (base + dofs * 3) t i := by
  unfold qFlatCol
  have h3 : dofs * 3 * (t + 1) = dofs * 3 * t + dofs * 3 := by ring
  have h4 : dofs * 3 * (k + 1) = dofs * 3 * k + dofs * 3 := by ring
  by_cases h : t ≤ k
  · rw [if_pos (by omega), if_pos h]
    omega
  · rw [if_neg (by omega), if_neg h]
    omega

lemma vFlatCol_succ_shift (dofs base t i : ℕ) :
    vFlatCol dofs base (t + 1) i = vFlatCol dofs (base + dofs * 3) t i := by
  unfold vFlatCol
  have h3 : dofs * 3 * (t + 1) = dofs * 3 * t + dofs * 3 := by ring
  omega

lemma aFlatCol_succ_shift (dofs base t i : ℕ) :
    aFlatCol dofs base (t + 1) i = aFlatCol dofs (base + dofs * 3) t i := by
  unfold aFlatCol
  have h3 : dofs * 3 * (t + 1) = dofs * 3 * t + dofs * 3 := by ring
  omega

lemma specTrialRows_zero (dofs base rowStart : ℕ) (dt : s_t) :
    specTrialRows dofs 0 base rowStart dt
      = ((List.range dofs).map (lastRowBlock dofs base rowStart dt)).flatten := by
  unfold specTrialRows
  simp only [List.range_zero, List.map_nil, List.flatten_nil, List.nil_append]
  rfl

lemma specTrialRows_succ (dofs k base rowStart : ℕ) (dt : s_t) :
    specTrialRows dofs (k + 1) base rowStart dt
      = timestepTriples dofs base rowStart dt
        ++ specTrialRows dofs k (base + dofs * 3) (rowStart + dofs * 2) dt := by
  unfold specTrialRows timestepTriples
  rw [List.range_succ_eq_map]
  simp only [List.map_cons, List.flatten_cons, List.map_map, List.append_assoc]
  congr 1
  · apply congrArg
    apply List.map_congr_left
    intro i _
    rw [show qFlatCol dofs (k + 1) base 0 i = base + i from by
        simp [qFlatCol],
      show qFlatCol dofs (k + 1) base (0 + 1) i = base + dofs * 3 + i from by
        rw [qFlatCol]
        rw [if_pos (by omega)]
        ring]
    simp [velRowBlock, vFlatCol]
  congr 1
  · apply congrArg
    apply List.map_congr_left
    intro i _
    rw [show vFlatCol dofs base (0 + 1) i = base + dofs * 3 + dofs + i from by
        rw [vFlatCol]
        ring]
    simp [accRowBlock, vFlatCol, aFlatCol]
  congr 1
  · apply congrArg
    apply List.map_congr_left
    intro t _
    simp only [Function.comp, Nat.succ_eq_add_one]
    congr 1
    · apply congrArg
      apply List.map_congr_left
      intro i _
      rw [qFlatCol_succ_shift, qFlatCol_succ_shift, vFlatCol_succ_shift,
        show rowStart + dofs * 2 * (t + 1) = rowStart + dofs * 2 + dofs * 2 * t from by
          ring]
    · apply congrArg
      apply List.map_congr_left
      intro i _
      rw [vFlatCol_succ_shift, vFlatCol_succ_shift, aFlatCol_succ_shift,
        show rowStart + dofs * 2 * (t + 1) = rowStart + dofs * 2 + dofs * 2 * t from by
          ring]
  · apply congrArg
    apply List.map_congr_left
    intro i _
    rw [qFlatCol_succ_shift, qFlatCol_succ_shift, vFlatCol_succ_shift,
      show rowStart + dofs * 2 * (k + 1) = rowStart + dofs * 2 + dofs * 2 * k from by
        ring]

lemma trialTriples_eq_specTrialRows (dofs : ℕ) (dt : s_t) :
    ∀ (k colC rowC : ℕ),
      trialTriples dofs dt k colC rowC = specTrialRows dofs k colC rowC dt := by
  intro k
  induction k with
  | zero =>
    intro colC rowC
    rw [specTrialRows_zero]
    rfl
  | succ j ih =>
    intro colC rowC
    have heq : trialTriples dofs dt (j + 1) colC rowC
        = timestepTriples dofs colC rowC dt
          ++ trialTriples dofs dt j (colC + dofs * 3) (rowC + dofs * 2) := rfl
    rw [heq, ih, specTrialRows_succ]

lemma allTrialTriples_eq_specTrials (dofs : ℕ) :
    ∀ (dts : List (s_t × ℕ)) (colC rowC : ℕ),
      allTrialTriples dofs dts colC rowC = specTrials dofs dts colC rowC := by
  intro dts
  induction dts with
  | nil =>
    intro colC rowC
    rfl
  | cons p rest ih =>
    intro colC rowC
    obtain ⟨dtv, k⟩ := p
    have heq : allTrialTriples dofs ((dtv, k) :: rest) colC rowC
        = trialTriples dofs dtv k colC rowC
          ++ allTrialTriples dofs rest (colC + dofs * 3 * (k + 1))
              (rowC + (dofs * 2 * k + dofs)) := rfl
    have heq2 : specTrials dofs ((dtv, k) :: rest) colC rowC
        = specTrialRows dofs k colC rowC dtv
          ++ specTrials dofs rest (colC + (k * dofs * 3 + dofs * 3))
              (rowC + (dofs * 2 * k + dofs)) := rfl
    rw [heq, heq2, trialTriples_eq_specTrialRows, ih,
      show colC + dofs * 3 * (k + 1) = colC + (k * dofs * 3 + dofs * 3) from by ring]

lemma computeSparse_eq_spec (c : ProblemConfig) (s : ProblemState) :
    computeSparseConstraintsJacobian c s = sparseJacobianSpec c s := by
  unfold computeSparseConstraintsJacobian sparseJacobianSpec
  by_cases hp : c.includePoses = true
  · rw [if_pos hp, if_pos hp, allTrialTriples_eq_specTrials]
  · rw [if_neg hp, if_neg hp]

/-!
### Supporting lemmas: grounding the layout columns in `flatten`

`qFlatCol`/`vFlatCol`/`aFlatCol` at a trial's `trialBase` are exactly the
flat-vector positions `flatten` assigns to that trial's position, velocity
and acceleration entries.
-/

lemma qFlatCol_base (dofs k b t i : ℕ) :
    qFlatCol dofs k b t i = b + qFlatCol dofs k 0 t i := by
  unfold qFlatCol
  by_cases h : t ≤ k
  · rw [if_pos h, if_pos h]
    omega
  · rw [if_neg h, if_neg h]
    omega

lemma vFlatCol_base (dofs b t i : ℕ) :
    vFlatCol dofs b t i = b + vFlatCol dofs 0 t i := by
  unfold vFlatCol
  omega

lemma aFlatCol_base (dofs b t i : ℕ) :
    aFlatCol dofs b t i = b + aFlatCol dofs 0 t i := by
  unfold aFlatCol
  omega

lemma qFlatCol_lt_poseSize (dofs : ℕ) (tr : TrialData) (t i : ℕ)
    (hi : i < dofs) (ht : t ≤ tr.accs.length + 1) :
    qFlatCol dofs tr.accs.length 0 t i < trialPoseSize dofs tr := by
  unfold qFlatCol trialPoseSize
  have hring : tr.accs.length * dofs * 3 = dofs * 3 * tr.accs.length := by ring
  by_cases h : t ≤ tr.accs.length
  · rw [if_pos h]
    have hmul := Nat.mul_le_mul (Nat.le_refl (dofs * 3)) h
    omega
  · rw [if_neg h]
    omega

lemma vFlatCol_lt_poseSize (dofs : ℕ) (tr : TrialData) (t i : ℕ)
    (hi : i < dofs) (ht : t ≤ tr.accs.length) :
    vFlatCol dofs 0 t i < trialPoseSize dofs tr := by
  unfold vFlatCol trialPoseSize
  have hring : tr.accs.length * dofs * 3 = dofs * 3 * tr.accs.length := by ring
  have hmul := Nat.mul_le_mul (Nat.le_refl (dofs * 3)) ht
  omega

lemma aFlatCol_lt_poseSize (dofs : ℕ) (tr : TrialData) (t i : ℕ)
    (hi : i < dofs) (ht : t < tr.accs.length) :
    aFlatCol dofs 0 t i < trialPoseSize dofs tr := by
  unfold aFlatCol trialPoseSize
  have hring : tr.accs.length * dofs * 3 = dofs * 3 * tr.accs.length := by ring
  have hmul := Nat.mul_le_mul (Nat.le_refl (dofs * 3)) (by omega : t + 1 ≤ tr.accs.length)
  have hexp : dofs * 3 * (t + 1) = dofs * 3 * t + dofs * 3 := by ring
  omega

lemma flattenTriples_getD (dofs : ℕ) :
    ∀ (t : ℕ) (qs vs as2 : List (List s_t)),
      t < as2.length →
      (∀ x ∈ qs, x.length = dofs) → (∀ x ∈ vs, x.length = dofs) →
      (∀ x ∈ as2, x.length = dofs) →
      qs.length = as2.length + 2 → vs.length = as2.length + 1 →
      ∀ i, i < dofs →
        (flattenTriples qs vs as2).getD (dofs * 3 * t + i) 0
            = (qs.getD t []).getD i 0
        ∧ (flattenTriples qs vs as2).getD (dofs * 3 * t + dofs + i) 0
            = (vs.getD t []).getD i 0
        ∧ (flattenTriples qs vs as2).getD (dofs * 3 * t + dofs * 2 + i) 0
            = (as2.getD t []).getD i 0 := by
  intro t
  induction t with
  | zero =>
    intro qs vs as2 htk hq hv hA hql hvl i hi
    obtain ⟨a, as2', rfl⟩ : ∃ a as2', as2 = a :: as2' := by
      cases as2 with
      | nil => exact absurd htk (by simp)
      | cons a as2' => exact ⟨a, as2', rfl⟩
    obtain ⟨q, qs', rfl⟩ : ∃ q qs', qs = q :: qs' := by
      cases qs with
      | nil => exact absurd hql (by simp)
      | cons q qs' => exact ⟨q, qs', rfl⟩
    obtain ⟨v, vs', rfl⟩ : ∃ v vs', vs = v :: vs' := by
      cases vs with
      | nil => exact absurd hvl (by simp)
      | cons v vs' => exact ⟨v, vs', rfl⟩
    have hqe : q.length = dofs := hq q (List.mem_cons_self _ _)
    have hve : v.length = dofs := hv v (List.mem_cons_self _ _)
    have hae : a.length = dofs := hA a (List.mem_cons_self _ _)
    rw [flattenTriples_cons]
    simp only [List.append_assoc]
    refine ⟨?_, ?_, ?_⟩
    · rw [show dofs * 3 * 0 + i = i from by omega,
        List.getD_append _ _ _ _ (by omega)]
      simp
    · rw [show dofs * 3 * 0 + dofs + i = dofs + i from by omega,
        List.getD_append_right _ _ _ _ (by omega), hqe,
        show dofs + i - dofs = i from by omega,
        List.getD_append _ _ _ _ (by omega)]
      simp
    · rw [show dofs * 3 * 0 + dofs * 2 + i = dofs * 2 + i from by omega,
        List.getD_append_right _ _ _ _ (by omega), hqe,
        show dofs * 2 + i - dofs = dofs + i from by omega,
        List.getD_append_right _ _ _ _ (by omega), hve,
        show dofs + i - dofs = i from by omega,
        List.getD_append _ _ _ _ (by omega)]
      simp
  | succ t' ih =>
    intro qs vs as2 htk hq hv hA hql hvl i hi
    obtain ⟨a, as2', rfl⟩ : ∃ a as2', as2 = a :: as2' := by
      cases as2 with
      | nil => exact absurd htk (by simp)
      | cons a as2' => exact ⟨a, as2', rfl⟩
    obtain ⟨q, qs', rfl⟩ : ∃ q qs', qs = q :: qs' := by
      cases qs with
      | nil => exact absurd hql (by simp)
      | cons q qs' => exact ⟨q, qs', rfl⟩
    obtain ⟨v, vs', rfl⟩ : ∃ v vs', vs = v :: vs' := by
      cases vs with
      | nil => exact absurd hvl (by simp)
      | cons v vs' => exact ⟨v, vs', rfl⟩
    have hqe : q.length = dofs := hq q (List.mem_cons_self _ _)
    have hve : v.length = dofs := hv v (List.mem_cons_self _ _)
    have hae : a.length = dofs := hA a (List.mem_cons_self _ _)
    have ht' : t' < as2'.length := by
      simp only [List.length_cons] at htk
      omega
    have ihh := ih qs' vs' as2' ht'
      (fun x hx => hq x (List.mem_cons_of_mem _ hx))
      (fun x hx => hv x (List.mem_cons_of_mem _ hx))
      (fun x hx => hA x (List.mem_cons_of_mem _ hx))
      (by simpa using hql) (by simpa using hvl) i hi
    have hexp : dofs * 3 * (t' + 1) = dofs * 3 * t' + dofs * 3 := by ring
    rw [flattenTriples_cons]
    simp only [List.append_assoc]
    refine ⟨?_, ?_, ?_⟩
    · rw [List.getD_append_right _ _ _ _ (by omega), hqe,
        show dofs * 3 * (t' + 1) + i - dofs = dofs * 3 * t' + dofs * 2 + i from by
          omega,
        List.getD_append_right _ _ _ _ (by omega), hve,
        show dofs * 3 * t' + dofs * 2 + i - dofs = dofs * 3 * t' + dofs + i from by
          omega,
        List.getD_append_right _ _ _ _ (by omega), hae,
        show dofs * 3 * t' + dofs + i - dofs = dofs * 3 * t' + i from by omega,
        List.getD_cons_succ]
      exact ihh.1
    · rw [List.getD_append_right _ _ _ _ (by omega), hqe,
        show dofs * 3 * (t' + 1) + dofs + i - dofs = dofs * 3 * t' + dofs * 3 + i from by
          omega,
        List.getD_append_right _ _ _ _ (by omega), hve,
        show dofs * 3 * t' + dofs * 3 + i - dofs = dofs * 3 * t' + dofs * 2 + i from by
          omega,
        List.getD_append_right _ _ _ _ (by omega), hae,
        show dofs * 3 * t' + dofs * 2 + i - dofs = dofs * 3 * t' + dofs + i from by
          omega,
        List.getD_cons_succ]
      exact ihh.2.1
    · rw [List.getD_append_right _ _ _ _ (by omega), hqe,
        show dofs * 3 * (t' + 1) + dofs * 2 + i - dofs
            = dofs * 3 * t' + dofs * 4 + i from by omega,
        List.getD_append_right _ _ _ _ (by omega), hve,
        show dofs * 3 * t' + dofs * 4 + i - dofs = dofs * 3 * t' + dofs * 3 + i from by
          omega,
        List.getD_append_right _ _ _ _ (by omega), hae,
        show dofs * 3 * t' + dofs * 3 + i - dofs = dofs * 3 * t' + dofs * 2 + i from by
          omega,
        List.getD_cons_succ]
      exact ihh.2.2

lemma flattenTrial_getD (dofs : ℕ) (tr : TrialData)
    (hps : tr.poses.length = tr.accs.length + 2)
    (hvs : tr.vels.length = tr.accs.length + 1)
    (hpl : ∀ p ∈ tr.poses, p.length = dofs)
    (hvl : ∀ v ∈ tr.vels, v.length = dofs)
    (hal : ∀ a ∈ tr.accs, a.length = dofs) :
    ∀ t i, i < dofs →
      (t ≤ tr.accs.length + 1 →
        (flattenTrial tr).getD (qFlatCol dofs tr.accs.length 0 t i) 0
          = (tr.poses.getD t []).getD i 0)
      ∧ (t ≤ tr.accs.length →
        (flattenTrial tr).getD (vFlatCol dofs 0 t i) 0
          = (tr.vels.getD t []).getD i 0)
      ∧ (t < tr.accs.length →
        (flattenTrial tr).getD (aFlatCol dofs 0 t i) 0
          = (tr.accs.getD t []).getD i 0) := by
  intro t i hi
  have hT : (flattenTriples tr.poses tr.vels tr.accs).length
      = tr.accs.length * (dofs * 3) :=
    flattenTriples_length dofs tr.accs tr.poses tr.vels hps hvs hpl hvl hal
  have hPk : (tr.poses.getD tr.accs.length []).length = dofs :=
    getD_length_of_all tr.poses tr.accs.length dofs (by omega) hpl
  have hVk : (tr.vels.getD tr.accs.length []).length = dofs :=
    getD_length_of_all tr.vels tr.accs.length dofs (by omega) hvl
  have hPk1 : (tr.poses.getD (tr.accs.length + 1) []).length = dofs :=
    getD_length_of_all tr.poses (tr.accs.length + 1) dofs (by omega) hpl
  have hring : tr.accs.length * (dofs * 3) = dofs * 3 * tr.accs.length := by ring
  have hE : flattenTrial tr
      = flattenTriples tr.poses tr.vels tr.accs
        ++ (tr.poses.getD tr.accs.length []
          ++ (tr.vels.getD tr.accs.length []
            ++ tr.poses.getD (tr.accs.length + 1) [])) := by
    unfold flattenTrial
    simp only [List.append_assoc]
  refine ⟨?_, ?_, ?_⟩
  · intro ht
    rcases Nat.lt_or_ge t tr.accs.length with hlt | hge
    · rw [hE, show qFlatCol dofs tr.accs.length 0 t i = dofs * 3 * t + i from by
          unfold qFlatCol
          rw [if_pos (by omega)]
          omega]
      have hmul := Nat.mul_le_mul (Nat.le_refl (dofs * 3))
        (by omega : t + 1 ≤ tr.accs.length)
      have hexp : dofs * 3 * (t + 1) = dofs * 3 * t + dofs * 3 := by ring
      rw [List.getD_append _ _ _ _ (by omega)]
      exact (flattenTriples_getD dofs t tr.poses tr.vels tr.accs hlt hpl hvl hal
        hps hvs i hi).1
    · rcases Nat.lt_or_ge t (tr.accs.length + 1) with h1 | h1
      · have heq : t = tr.accs.length := by omega
        rw [heq, hE,
          show qFlatCol dofs tr.accs.length 0 tr.accs.length i
              = dofs * 3 * tr.accs.length + i from by
            unfold qFlatCol
            rw [if_pos (Nat.le_refl _)]
            omega,
          List.getD_append_right _ _ _ _ (by omega), hT,
          show dofs * 3 * tr.accs.length + i - tr.accs.length * (dofs * 3) = i from by
            omega,
          List.getD_append _ _ _ _ (by omega)]
      · have heq : t = tr.accs.length + 1 := by omega
        rw [heq, hE,
          show qFlatCol dofs tr.accs.length 0 (tr.accs.length + 1) i
              = dofs * 3 * tr.accs.length + dofs * 2 + i from by
            unfold qFlatCol
            rw [if_neg (by omega)]
            omega,
          List.getD_append_right _ _ _ _ (by omega), hT,
          show dofs * 3 * tr.accs.length + dofs * 2 + i - tr.accs.length * (dofs * 3)
              = dofs * 2 + i from by omega,
          List.getD_append_right _ _ _ _ (by omega), hPk,
          show dofs * 2 + i - dofs = dofs + i from by omega,
          List.getD_append_right _ _ _ _ (by omega), hVk,
          show dofs + i - dofs = i from by omega]
  · intro ht
    rcases Nat.lt_or_ge t tr.accs.length with hlt | hge
    · rw [hE, show vFlatCol dofs 0 t i = dofs * 3 * t + dofs + i from by
          unfold vFlatCol
          omega]
      have hmul := Nat.mul_le_mul (Nat.le_refl (dofs * 3))
        (by omega : t + 1 ≤ tr.accs.length)
      have hexp : dofs * 3 * (t + 1) = dofs * 3 * t + dofs * 3 := by ring
      rw [List.getD_append _ _ _ _ (by omega)]
      exact (flattenTriples_getD dofs t tr.poses tr.vels tr.accs hlt hpl hvl hal
        hps hvs i hi).2.1
    · have heq : t = tr.accs.length := by omega
      rw [heq, hE,
        show vFlatCol dofs 0 tr.accs.length i
            = dofs * 3 * tr.accs.length + dofs + i from by
          unfold vFlatCol
          omega,
        List.getD_append_right _ _ _ _ (by omega), hT,
        show dofs * 3 * tr.accs.length + dofs + i - tr.accs.length * (dofs * 3)
            = dofs + i from by omega,
        List.getD_append_right _ _ _ _ (by omega), hPk,
        show dofs + i - dofs = i from by omega,
        List.getD_append _ _ _ _ (by omega)]
  · intro ht
    rw [hE, show aFlatCol dofs 0 t i = dofs * 3 * t + dofs * 2 + i from by
        unfold aFlatCol
        omega]
    have hmul := Nat.mul_le_mul (Nat.le_refl (dofs * 3))
      (by omega : t + 1 ≤ tr.accs.length)
    have hexp : dofs * 3 * (t + 1) = dofs * 3 * t + dofs * 3 := by ring
    rw [List.getD_append _ _ _ _ (by omega)]
    exact (flattenTriples_getD dofs t tr.poses tr.vels tr.accs ht hpl hvl hal
      hps hvs i hi).2.2

lemma getD_append_big (l l' : List s_t) (d : s_t) (n r : ℕ) (h : l.length = n) :
    (l ++ l').getD (n + r) d = l'.getD r d := by
  rw [List.getD_append_right _ _ _ _ (by omega),
    show n + r - l.length = r from by omega]

lemma flatten_blocks_getD :
    ∀ (j : ℕ) (L : List (List s_t)), j < L.length →
      ∀ r, r < (L.getD j []).length →
        L.flatten.getD (((L.take j).map List.length).sum + r) 0
          = (L.getD j []).getD r 0 := by
  intro j
  induction j with
  | zero =>
    intro L hj r hr
    cases L with
    | nil => exact absurd hj (by simp)
    | cons x L' =>
      simp only [List.take_zero, List.map_nil, List.sum_nil, Nat.zero_add]
      rw [List.flatten_cons, List.getD_append _ _ _ _ (by simpa using hr)]
      simp
  | succ j' ih =>
    intro L hj r hr
    cases L with
    | nil => exact absurd hj (by simp)
    | cons x L' =>
      have hj' : j' < L'.length := by
        simp only [List.length_cons] at hj
        omega
      have hr' : r < (L'.getD j' []).length := by
        simpa using hr
      rw [List.take_succ_cons, List.map_cons, List.sum_cons, List.flatten_cons,
        show x.length + ((L'.take j').map List.length).sum + r
            = x.length + (((L'.take j').map List.length).sum + r) from by omega,
        getD_append_big _ _ _ _ _ rfl, List.getD_cons_succ]
      exact ih L' hj' r hr'

lemma flatten_getD_pose (c : ProblemConfig) (s : ProblemState) (hwf : WF c s)
    (hp : c.includePoses = true) (r : ℕ) :
    (flatten c s).getD (nonPoseDim c s + r) 0
      = ((s.trials.map flattenTrial).flatten).getD r 0 := by
  obtain ⟨h1, h2, h3, h4, h5, _⟩ := hwf
  have e1 : (if c.includeMasses then s.skel.groupMasses else []).length
      = (if c.includeMasses then c.numScaleGroups else 0) := by
    cases c.includeMasses <;> simp [h1]
  have e2 : (if c.includeCOMs then s.skel.groupCOMs else []).length
      = (if c.includeCOMs then c.numScaleGroups * 3 else 0) := by
    cases c.includeCOMs <;> simp [h2]
  have e3 : (if c.includeInertias then s.skel.groupInertias else []).length
      = (if c.includeInertias then c.numScaleGroups * 6 else 0) := by
    cases c.includeInertias <;> simp [h3]
  have e4 : (if c.includeBodyScales then s.skel.groupScales else []).length
      = (if c.includeBodyScales then c.groupScaleDim else 0) := by
    cases c.includeBodyScales <;> simp [h4]
  have e5 : (if c.includeMarkerOffsets then s.markerOffsets.flatten else []).length
      = (if c.includeMarkerOffsets then s.markerOffsets.length * 3 else 0) := by
    cases c.includeMarkerOffsets <;> simp [flatten3_length s.markerOffsets h5]
  have hNP : ((if c.includeMasses then s.skel.groupMasses else [])
      ++ ((if c.includeCOMs then s.skel.groupCOMs else [])
        ++ ((if c.includeInertias then s.skel.groupInertias else [])
          ++ ((if c.includeBodyScales then s.skel.groupScales else [])
            ++ (if c.includeMarkerOffsets then s.markerOffsets.flatten
                else []))))).length
      = nonPoseDim c s := by
    simp only [List.length_append]
    unfold nonPoseDim
    omega
  have hsplit : flatten c s
      = ((if c.includeMasses then s.skel.groupMasses else [])
        ++ ((if c.includeCOMs then s.skel.groupCOMs else [])
          ++ ((if c.includeInertias then s.skel.groupInertias else [])
            ++ ((if c.includeBodyScales then s.skel.groupScales else [])
              ++ (if c.includeMarkerOffsets then s.markerOffsets.flatten
                  else [])))))
        ++ (s.trials.map flattenTrial).flatten := by
    unfold flatten
    rw [if_pos hp]
    simp only [List.append_assoc]
  rw [hsplit, getD_append_big _ _ _ _ _ hNP]

lemma trialsFlat_getD (c : ProblemConfig) (s : ProblemState) (hwf : WF c s)
    (trial : ℕ) (htr : trial < s.trials.length) (r : ℕ)
    (hr : r < trialPoseSize c.dofs (s.trials.getD trial emptyTrial)) :
    ((s.trials.map flattenTrial).flatten).getD
        (((s.trials.take trial).map (trialPoseSize c.dofs)).sum + r) 0
      = (flattenTrial (s.trials.getD trial emptyTrial)).getD r 0 := by
  have hgd : (s.trials.map flattenTrial).getD trial []
      = flattenTrial (s.trials.getD trial emptyTrial) := by
    rw [List.getD_eq_getElem _ _ (by simpa using htr), List.getElem_map,
      List.getD_eq_getElem _ _ htr]
  have hlen : ((s.trials.map flattenTrial).take trial).map List.length
      = (s.trials.take trial).map (trialPoseSize c.dofs) := by
    rw [← List.map_take, List.map_map]
    apply List.map_congr_left
    intro tr htr2
    obtain ⟨hps, hvs, hpl, hvl, hal⟩ :=
      hwf.2.2.2.2.2 tr (List.take_subset _ _ htr2)
    exact flattenTrial_length c.dofs tr hps hvs hpl hvl hal
  have hmem : s.trials.getD trial emptyTrial ∈ s.trials := by
    rw [List.getD_eq_getElem _ _ htr]
    exact List.getElem_mem htr
  obtain ⟨hps, hvs, hpl, hvl, hal⟩ := hwf.2.2.2.2.2 _ hmem
  have hr2 : r < ((s.trials.map flattenTrial).getD trial []).length := by
    rw [hgd, flattenTrial_length c.dofs _ hps hvs hpl hvl hal]
    exact hr
  have hmain := flatten_blocks_getD trial (s.trials.map flattenTrial)
    (by simpa using htr) r hr2
  rw [hlen, hgd] at hmain
  exact hmain

lemma flatten_state_lookup (c : ProblemConfig) (s : ProblemState) (hwf : WF c s)
    (hp : c.includePoses = true) (trial : ℕ) (htr : trial < s.trials.length)
    (t i : ℕ) (hi : i < c.dofs) :
    (t ≤ (s.trials.getD trial emptyTrial).accs.length + 1 →
      (flatten c s).getD
          (qFlatCol c.dofs (s.trials.getD trial emptyTrial).accs.length
            (trialBase c s trial) t i) 0
        = ((s.trials.getD trial emptyTrial).poses.getD t []).getD i 0)
    ∧ (t ≤ (s.trials.getD trial emptyTrial).accs.length →
      (flatten c s).getD (vFlatCol c.dofs (trialBase c s trial) t i) 0
        = ((s.trials.getD trial emptyTrial).vels.getD t []).getD i 0)
    ∧ (t < (s.trials.getD trial emptyTrial).accs.length →
      (flatten c s).getD (aFlatCol c.dofs (trialBase c s trial) t i) 0
        = ((s.trials.getD trial emptyTrial).accs.getD t []).getD i 0) := by
  have hmem : s.trials.getD trial emptyTrial ∈ s.trials := by
    rw [List.getD_eq_getElem _ _ htr]
    exact List.getElem_mem htr
  obtain ⟨hps, hvs, hpl, hvl, hal⟩ := hwf.2.2.2.2.2 _ hmem
  have key : ∀ loc, loc < trialPoseSize c.dofs (s.trials.getD trial emptyTrial) →
      (flatten c s).getD (trialBase c s trial + loc) 0
        = (flattenTrial (s.trials.getD trial emptyTrial)).getD loc 0 := by
    intro loc hloc
    rw [show trialBase c s trial + loc
        = nonPoseDim c s
          + (((s.trials.take trial).map (trialPoseSize c.dofs)).sum + loc) from by
        unfold trialBase
        omega,
      flatten_getD_pose c s hwf hp]
    exact trialsFlat_getD c s hwf trial htr loc hloc
  refine ⟨?_, ?_, ?_⟩
  · intro ht
    rw [qFlatCol_base, key _ (qFlatCol_lt_poseSize c.dofs _ t i hi ht)]
    exact (flattenTrial_getD c.dofs _ hps hvs hpl hvl hal t i hi).1 ht
  · intro ht
    rw [vFlatCol_base, key _ (vFlatCol_lt_poseSize c.dofs _ t i hi ht)]
    exact (flattenTrial_getD c.dofs _ hps hvs hpl hvl hal t i hi).2.1 ht
  · intro ht
    rw [aFlatCol_base, key _ (aFlatCol_lt_poseSize c.dofs _ t i hi ht)]
    exact (flattenTrial_getD c.dofs _ hps hvs hpl hvl hal t i hi).2.2 ht

lemma specTrials_decompose (dofs : ℕ) :
    ∀ (dts : List (s_t × ℕ)) (j base rowStart : ℕ), j < dts.length →
      ∃ P Q, specTrials dofs dts base rowStart
        = P ++ (specTrialRows dofs (dts.getD j (0, 0)).2
            (base + ((dts.take j).map (fun p => p.2 * dofs * 3 + dofs * 3)).sum)
            (rowStart + rowSpan dofs (dts.take j)) (dts.getD j (0, 0)).1 ++ Q) := by
  intro dts
  induction dts with
  | nil =>
    intro j base rowStart hj
    exact absurd hj (by simp)
  | cons p rest ih =>
    intro j base rowStart hj
    obtain ⟨dt, k⟩ := p
    cases j with
    | zero =>
      refine ⟨[], specTrials dofs rest (base + (k * dofs * 3 + dofs * 3))
        (rowStart + (dofs * 2 * k + dofs)), ?_⟩
      simp only [List.take_zero, List.map_nil, List.sum_nil, Nat.add_zero,
        List.getD_cons_zero, List.nil_append, rowSpan]
      rfl
    | succ j' =>
      have hj' : j' < rest.length := by
        simp only [List.length_cons] at hj
        omega
      obtain ⟨P', Q', hPQ⟩ := ih j' (base + (k * dofs * 3 + dofs * 3))
        (rowStart + (dofs * 2 * k + dofs)) hj'
      refine ⟨specTrialRows dofs k base rowStart dt ++ P', Q', ?_⟩
      have hunf : specTrials dofs ((dt, k) :: rest) base rowStart
          = specTrialRows dofs k base rowStart dt
            ++ specTrials dofs rest (base + (k * dofs * 3 + dofs * 3))
                (rowStart + (dofs * 2 * k + dofs)) := rfl
      rw [hunf, hPQ, List.append_assoc]
      simp only [List.getD_cons_succ, List.take_succ_cons, List.map_cons,
        List.sum_cons, rowSpan]
      rw [show base + (k * dofs * 3 + dofs * 3)
            + ((rest.take j').map (fun p => p.2 * dofs * 3 + dofs * 3)).sum
          = base + (k * dofs * 3 + dofs * 3
            + ((rest.take j').map (fun p => p.2 * dofs * 3 + dofs * 3)).sum) from by
          omega,
        show rowStart + (dofs * 2 * k + dofs)
            + ((rest.take j').map (fun p => dofs * 2 * p.2 + dofs)).sum
          = rowStart + (dofs * 2 * k + dofs
            + ((rest.take j').map (fun p => dofs * 2 * p.2 + dofs)).sum) from by
          omega]

/-!
### Theorems
-/

/-- C1: for every inclusion-flag combination and every vector `x` of
length `getProblemSize()` consistent with the skeleton's dimensionality,
`unflatten x` followed by `flatten` returns `x` exactly, and `flatten`
returns a vector whose length equals `getProblemSize()`. -/
theorem unflatten_flatten_roundtrip (c : ProblemConfig) (s : ProblemState)
    (x : List s_t) (hwf : WF c s) (hx : x.length = getProblemSize c s) :
    flatten c (unflatten c s x) = x
      ∧ (flatten c s).length = getProblemSize c s := by
  constructor
  · have h := unflatten_flatten_chain c s x
    rwa [← hx, List.drop_length, List.append_nil] at h
  · exact flatten_length c s hwf

/-- Witness for C1 at a concrete all-flags-on configuration. -/
theorem unflatten_flatten_roundtrip_witness :
    WF cw1 sw1 ∧ xw1.length = getProblemSize cw1 sw1
      ∧ (flatten cw1 (unflatten cw1 sw1 xw1) = xw1
          ∧ (flatten cw1 sw1).length = getProblemSize cw1 sw1) :=
  ⟨by decide, by decide, unflatten_flatten_roundtrip cw1 sw1 xw1 (by decide) (by decide)⟩

/-- Supporting: one trial emits `2·dofs` constraint values per
acceleration timestep plus one trailing `dofs`-sized block. -/
lemma trialConstraints_length (dofs : ℕ) (tr : TrialData) :
    (trialConstraints dofs tr).length = tr.accs.length * dofs * 2 + dofs := by
  simp only [trialConstraints, List.length_append, List.length_flatten,
    List.map_map, List.length_map, List.length_range]
  have h : ∀ t ∈ List.range tr.accs.length,
      (List.length ∘ fun t =>
        (List.range dofs).map (fun i =>
            col tr.vels t i * tr.dt - (col tr.poses (t + 1) i - col tr.poses t i))
        ++ (List.range dofs).map (fun i =>
            col tr.accs t i * tr.dt - (col tr.vels (t + 1) i - col tr.vels t i))) t
      = dofs * 2 := by
    intro t _
    simp
    ring
  rw [List.map_congr_left h]
  simp [List.sum_replicate, List.map_const]
  ring

/-- Supporting: the constraint vector `computeConstraints` emits has one
trailing `dofs`-sized block per trial. -/
lemma computeConstraints_length (c : ProblemConfig) (s : ProblemState)
    (hp : c.includePoses = true) :
    (computeConstraints c s).length
      = (s.trials.map (fun tr => tr.accs.length * c.dofs * 2)).sum
        + s.trials.length * c.dofs := by
  unfold computeConstraints
  rw [if_pos hp, List.length_flatten, List.map_map]
  induction s.trials with
  | nil => simp
  | cons tr rest ih =>
    simp only [List.map_cons, List.sum_cons, List.length_cons, Function.comp]
    rw [trialConstraints_length, ih]
    ring

/-- C3: `computeConstraints` emits the trailing velocity-consistency block
once per trial, but `getConstraintSize` counts it only once in total: with
two trials (`dofs = 1`, one acceleration column each) the cursor writes 6
values into the 5-slot constraint vector, violating the source's own
`assert(cursor == constraints.size())`. -/
theorem getConstraintSize_mismatch_two_trials :
    getConstraintSize c3bug s3bug = 5
      ∧ (computeConstraints c3bug s3bug).length = 6
      ∧ (computeConstraints c3bug s3bug).length ≠ getConstraintSize c3bug s3bug := by
  refine ⟨by decide, by decide, by decide⟩

/-- C4: `calculateResidual(q, dq, ddq, forcesConcat)` returns exactly the
first 6 entries of `M(q)·ddq + C(q, dq) − ΣF_contact`, where the contact
sum ranges over the assigned contact bodies, and restores the skeleton
state. -/
theorem calculateResidual_spec (m : DynModel) (st : SkelDyn)
    (q dq ddq forcesConcat : List s_t) :
    (calculateResidual m st q dq ddq forcesConcat).1
      = (vSub (vAdd (matVec (m.massMatrix q) ddq) (m.coriolis q dq))
          (contactForcesSum m q forcesConcat)).take 6
    ∧ (calculateResidual m st q dq ddq forcesConcat).2 = st := by
  obtain ⟨p, v, a⟩ := st
  exact ⟨rfl, rfl⟩

/-- Supporting: every dispatch branch of `calculateResidualJacobianWrt`
restores the accelerations to the pre-call velocities (the line-112 slip). -/
lemma calculateResidualJacobianWrt_state (m : DynModel) (st : SkelDyn)
    (q dq ddq forcesConcat : List s_t) (wrt : WRT) :
    (calculateResidualJacobianWrt m st q dq ddq forcesConcat wrt).2
      = ⟨st.pos, st.vel, st.vel⟩ := by
  obtain ⟨p, v, a⟩ := st
  cases wrt <;> rfl

/-- C5 (code bug): `calculateResidualJacobianWrt` does not leave the
skeleton state unchanged — line 112 saves `getVelocities()` into
`originalAcc`, so on a skeleton whose velocities differ from its
accelerations the restored accelerations equal the old velocities. -/
theorem calculateResidualJacobianWrt_clobbers_accelerations :
    (calculateResidualJacobianWrt m5triv st5 [0] [0] [0] [] WRT.position).2 ≠ st5
      ∧ (calculateResidualJacobianWrt m5triv st5 [0] [0] [0] [] WRT.position).2
          = ⟨st5.pos, st5.vel, st5.vel⟩
      ∧ st5.vel ≠ st5.acc := by
  refine ⟨by decide, by decide, by decide⟩

/-- C6 counterexample: with one trial of two acceleration timesteps, the
second flagged `probablyMissingGRF`, unit weight and unit residual norms,
`computeLoss`'s residual term is `1/2` (normalized by the count of all
acceleration timesteps), not `1` (normalized by the count of non-flagged
timesteps, as the claim reads). -/
theorem residualRMS_not_normalized_by_nonflagged_count :
    (computeLossTerms m6 s6).residualRMS ≠ residualRMSSpecReading m6 s6
      ∧ (computeLossTerms m6 s6).residualRMS = 1 / 2
      ∧ residualRMSSpecReading m6 s6 = 1 := by
  have h1 : (computeLossTerms m6 s6).residualRMS = 1 / 2 := by
    show residualRMS m6 s6 = 1 / 2
    norm_num [residualRMS, lsum, List.range_succ, m6, s6, emptyTrial,
      totalAccTimesteps]
  have h2 : residualRMSSpecReading m6 s6 = 1 := by
    norm_num [residualRMSSpecReading, residualSumNonFlagged,
      nonFlaggedAccTimesteps, lsum, nsum, List.range_succ, m6, s6, emptyTrial]
  refine ⟨by rw [h1, h2]; norm_num, h1, h2⟩

/-- C6 (amended): the residual-force term of `computeLoss` is the sum of
`calculateResidualNorm` over exactly the acceleration timesteps not
flagged `probablyMissingGRF`, scaled by the residual weight and divided
by the count of all acceleration timesteps (flagged ones included in the
denominator, excluded from the numerator). -/
theorem residualRMS_characterization (m : LossModel) (s : ProblemState)
    (h : ∀ tr ∈ s.trials, tr.accs.length ≤ tr.poses.length) :
    (computeLossTerms m s).residualRMS
      = m.residualWeight * residualSumNonFlagged m s / (totalAccTimesteps s : s_t) := by
  have htrial : ∀ trial, trial < s.trials.length →
      lsum ((s.trials.getD trial emptyTrial).poses.length) (fun t =>
        if t < (s.trials.getD trial emptyTrial).accs.length
            ∧ ¬((m.probablyMissingGRF.getD trial []).getD t false) then
          m.residualWeight * (1 / (totalAccTimesteps s : s_t)) * m.resNorm trial t
        else 0)
      = m.residualWeight * (1 / (totalAccTimesteps s : s_t))
        * lsum ((s.trials.getD trial emptyTrial).accs.length) (fun t =>
            if ¬((m.probablyMissingGRF.getD trial []).getD t false) then
              m.resNorm trial t
            else 0) := by
    intro trial htr
    have hlen : (s.trials.getD trial emptyTrial).accs.length
        ≤ (s.trials.getD trial emptyTrial).poses.length := by
      apply h
      rw [List.getD_eq_getElem _ _ htr]
      exact List.getElem_mem htr
    have e1 := lsum_ext_zero ((s.trials.getD trial emptyTrial).accs.length)
      ((s.trials.getD trial emptyTrial).poses.length)
      (fun t =>
        if t < (s.trials.getD trial emptyTrial).accs.length
            ∧ ¬((m.probablyMissingGRF.getD trial []).getD t false) then
          m.residualWeight * (1 / (totalAccTimesteps s : s_t)) * m.resNorm trial t
        else 0)
      hlen
      (by
        intro t ht
        apply if_neg
        rintro ⟨hcon, -⟩
        omega)
    rw [e1]
    have e2 := lsum_congr_below ((s.trials.getD trial emptyTrial).accs.length)
      (fun t =>
        if t < (s.trials.getD trial emptyTrial).accs.length
            ∧ ¬((m.probablyMissingGRF.getD trial []).getD t false) then
          m.residualWeight * (1 / (totalAccTimesteps s : s_t)) * m.resNorm trial t
        else 0)
      (fun t => m.residualWeight * (1 / (totalAccTimesteps s : s_t))
        * (if ¬((m.probablyMissingGRF.getD trial []).getD t false) then
            m.resNorm trial t else 0))
      (by
        intro t ht
        beta_reduce
        by_cases hmiss : (m.probablyMissingGRF.getD trial []).getD t false
        · rw [if_neg (fun hc => hc.2 hmiss), if_neg (fun hn => hn hmiss), mul_zero]
        · rw [if_pos ⟨ht, hmiss⟩, if_pos hmiss])
    rw [e2, lsum_mul_left]
  show residualRMS m s
      = m.residualWeight * residualSumNonFlagged m s / (totalAccTimesteps s : s_t)
  unfold residualRMS
  rw [lsum_congr_below _ _ _ htrial, lsum_mul_left]
  unfold residualSumNonFlagged
  rw [div_eq_mul_inv]
  ring

/-- Witness for the amended C6 statement at the counterexample instance. -/
theorem residualRMS_characterization_witness :
    (∀ tr ∈ s6.trials, tr.accs.length ≤ tr.poses.length)
      ∧ (computeLossTerms m6 s6).residualRMS
          = m6.residualWeight * residualSumNonFlagged m6 s6
            / (totalAccTimesteps s6 : s_t) :=
  ⟨by decide, residualRMS_characterization m6 s6 (by decide)⟩

/-- C7: the triples emitted by `computeSparseConstraintsJacobian` are
exactly `sparseJacobianSpec` — per trial, per acceleration timestep `t` and
dof `i`, a velocity-consistency row with `+1` on the position column of
`q_t(i)`, `−1` on the position column of `q_{t+1}(i)` and that row's own
trial's `dt` on the corresponding derivative column of `v_t(i)`, then an
acceleration-consistency row with `+1`/`−1` on the velocity columns of
`v_t(i)`/`v_{t+1}(i)` and `dt` on the derivative column of `a_t(i)`, plus
`dofs` trailing last-velocity rows per trial.  Each trial's block sits at
its `trialBase` after the previous trials' rows (second conjunct), and the
column maps `qFlatCol`/`vFlatCol`/`aFlatCol` at `trialBase` are exactly
the flat positions `flatten` assigns to that trial's position, velocity
and acceleration entries (third conjunct).  Every row index appears in
exactly three triples with values `+1`, `−1`, `dt` of some trial, and
`computeConstraintsJacobian` is exactly the dense matrix whose only
nonzero entries are these triples. -/
theorem sparse_jacobian_rows_and_dense (c : ProblemConfig) (s : ProblemState) :
    computeSparseConstraintsJacobian c s = sparseJacobianSpec c s
    ∧ (c.includePoses = true → ∀ trial, trial < s.trials.length →
        ∃ P Q, computeSparseConstraintsJacobian c s
          = P ++ (specTrialRows c.dofs
              (s.trials.getD trial emptyTrial).accs.length
              (trialBase c s trial)
              (rowSpan c.dofs
                ((s.trials.take trial).map (fun tr => (tr.dt, tr.accs.length))))
              (s.trials.getD trial emptyTrial).dt ++ Q))
    ∧ (WF c s → c.includePoses = true → ∀ trial, trial < s.trials.length →
        ∀ t i, i < c.dofs →
          (t ≤ (s.trials.getD trial emptyTrial).accs.length + 1 →
            (flatten c s).getD
                (qFlatCol c.dofs (s.trials.getD trial emptyTrial).accs.length
                  (trialBase c s trial) t i) 0
              = ((s.trials.getD trial emptyTrial).poses.getD t []).getD i 0)
          ∧ (t ≤ (s.trials.getD trial emptyTrial).accs.length →
            (flatten c s).getD (vFlatCol c.dofs (trialBase c s trial) t i) 0
              = ((s.trials.getD trial emptyTrial).vels.getD t []).getD i 0)
          ∧ (t < (s.trials.getD trial emptyTrial).accs.length →
            (flatten c s).getD (aFlatCol c.dofs (trialBase c s trial) t i) 0
              = ((s.trials.getD trial emptyTrial).accs.getD t []).getD i 0))
    ∧ (∀ r col v, (r, col, v) ∈ computeSparseConstraintsJacobian c s →
      ∃ dt c1 c2 c3, dt ∈ s.trials.map TrialData.dt
        ∧ c1 ≠ c2 ∧ c1 ≠ c3 ∧ c2 ≠ c3
        ∧ filterRow r (computeSparseConstraintsJacobian c s)
            = [(r, c1, 1), (r, c2, -1), (r, c3, dt)])
    ∧ (∀ tr ∈ computeSparseConstraintsJacobian c s,
        computeConstraintsJacobian c s tr.1 tr.2.1 = tr.2.2)
    ∧ (∀ r col, (∀ v, (r, col, v) ∉ computeSparseConstraintsJacobian c s) →
        computeConstraintsJacobian c s r col = 0) := by
  refine ⟨computeSparse_eq_spec c s, ?_, ?_, ?_⟩
  · intro hp trial htr
    have hlenmap : trial
        < (s.trials.map (fun tr => (tr.dt, tr.accs.length))).length := by
      simpa using htr
    obtain ⟨P, Q, hPQ⟩ := specTrials_decompose c.dofs
      (s.trials.map (fun tr => (tr.dt, tr.accs.length))) trial (nonPoseDim c s) 0
      hlenmap
    have hgd : (s.trials.map (fun tr => (tr.dt, tr.accs.length))).getD trial
        ((0 : s_t), (0 : ℕ))
        = ((s.trials.getD trial emptyTrial).dt,
            (s.trials.getD trial emptyTrial).accs.length) := by
      rw [List.getD_eq_getElem _ _ hlenmap, List.getElem_map,
        List.getD_eq_getElem _ _ htr]
    have hgd1 : ((s.trials.map (fun tr => (tr.dt, tr.accs.length))).getD trial
        ((0 : s_t), (0 : ℕ))).1 = (s.trials.getD trial emptyTrial).dt := by
      rw [hgd]
    have hgd2 : ((s.trials.map (fun tr => (tr.dt, tr.accs.length))).getD trial
        ((0 : s_t), (0 : ℕ))).2
        = (s.trials.getD trial emptyTrial).accs.length := by
      rw [hgd]
    have hsum : (s.trials.take trial).map
        ((fun p : s_t × ℕ => p.2 * c.dofs * 3 + c.dofs * 3)
          ∘ (fun tr => (tr.dt, tr.accs.length)))
        = (s.trials.take trial).map (trialPoseSize c.dofs) :=
      List.map_congr_left (fun tr _ => rfl)
    have hbase : nonPoseDim c s
        + (((s.trials.map (fun tr => (tr.dt, tr.accs.length))).take trial).map
            (fun p => p.2 * c.dofs * 3 + c.dofs * 3)).sum
        = trialBase c s trial := by
      rw [← List.map_take, List.map_map, hsum]
      rfl
    have hrow : (0 : ℕ) + rowSpan c.dofs
        ((s.trials.map (fun tr => (tr.dt, tr.accs.length))).take trial)
        = rowSpan c.dofs
            ((s.trials.take trial).map (fun tr => (tr.dt, tr.accs.length))) := by
      rw [← List.map_take, Nat.zero_add]
    refine ⟨P, Q, ?_⟩
    rw [computeSparse_eq_spec]
    unfold sparseJacobianSpec
    rw [if_pos hp, hPQ, hgd1, hgd2, hbase, hrow]
  · intro hwf hp trial htr t i hi
    exact flatten_state_lookup c s hwf hp trial htr t i hi
  ·
    by_cases hp : c.includePoses = true
    · have hT : computeSparseConstraintsJacobian c s
          = allTrialTriples c.dofs (s.trials.map (fun tr => (tr.dt, tr.accs.length)))
              (nonPoseDim c s) 0 := by
        unfold computeSparseConstraintsJacobian
        rw [if_pos hp]
      have hDense : computeConstraintsJacobian c s
          = denseFromTriples (computeSparseConstraintsJacobian c s) := by
        unfold computeConstraintsJacobian computeSparseConstraintsJacobian
        rw [if_pos hp, if_pos hp]
      have part1 : ∀ r col v, (r, col, v) ∈ computeSparseConstraintsJacobian c s →
          ∃ dt c1 c2 c3, dt ∈ s.trials.map TrialData.dt
            ∧ c1 ≠ c2 ∧ c1 ≠ c3 ∧ c2 ≠ c3
            ∧ filterRow r (computeSparseConstraintsJacobian c s)
                = [(r, c1, 1), (r, c2, -1), (r, c3, dt)] := by
        intro r col v hmem
        have hbound := allTrialTriples_row_bound c.dofs
          (s.trials.map (fun tr => (tr.dt, tr.accs.length))) (nonPoseDim c s) 0
          (r, col, v) (hT ▸ hmem)
        have hb2 : r < 0 + rowSpan c.dofs (s.trials.map (fun tr => (tr.dt, tr.accs.length))) :=
          hbound.2
        obtain ⟨dt0, c1, c2, c3, hdt, d12, d13, d23, hfil⟩ :=
          filterRow_allTrialTriples c.dofs
            (s.trials.map (fun tr => (tr.dt, tr.accs.length))) (nonPoseDim c s) 0 r
            (by omega) hb2
        refine ⟨dt0, c1, c2, c3, ?_, d12, d13, d23, by rw [hT]; exact hfil⟩
        simpa [List.map_map, Function.comp] using hdt
      refine ⟨part1, ?_, ?_⟩
      · intro tr htr
        obtain ⟨r, cl, v⟩ := tr
        obtain ⟨dt0, c1, c2, c3, hdt, d12, d13, d23, hfil⟩ := part1 r cl v htr
        have hmemf : ((r, cl, v) : Triple)
            ∈ filterRow r (computeSparseConstraintsJacobian c s) := by
          rw [filterRow]
          exact List.mem_filter.mpr ⟨htr, by simp⟩
        rw [hfil] at hmemf
        simp only [List.mem_cons, List.not_mem_nil, or_false] at hmemf
        have hkey : filterKey r cl (computeSparseConstraintsJacobian c s)
            = [(r, cl, v)] := by
          rw [filterKey_eq_filterRow_filter, hfil]
          rcases hmemf with h | h | h
          · obtain ⟨hcl, hv⟩ : cl = c1 ∧ v = 1 := by simpa using h
            subst hcl hv
            have e2 : (c2 == cl) = false := by
              simp only [beq_eq_false_iff_ne]
              exact Ne.symm d12
            have e3 : (c3 == cl) = false := by
              simp only [beq_eq_false_iff_ne]
              exact Ne.symm d13
            simp [e2, e3]
          · obtain ⟨hcl, hv⟩ : cl = c2 ∧ v = -1 := by simpa using h
            subst hcl hv
            have e1 : (c1 == cl) = false := by
              simp only [beq_eq_false_iff_ne]
              exact d12
            have e3 : (c3 == cl) = false := by
              simp only [beq_eq_false_iff_ne]
              exact Ne.symm d23
            simp [e1, e3]
          · obtain ⟨hcl, hv⟩ : cl = c3 ∧ v = dt0 := by simpa using h
            subst hcl hv
            have e1 : (c1 == cl) = false := by
              simp only [beq_eq_false_iff_ne]
              exact d13
            have e2 : (c2 == cl) = false := by
              simp only [beq_eq_false_iff_ne]
              exact d23
            simp [e1, e2]
        rw [hDense]
        exact dense_of_filterKey_single r cl v _ hkey
      · intro r col hno
        have hkey : filterKey r col (computeSparseConstraintsJacobian c s) = [] := by
          rw [filterKey, List.filter_eq_nil_iff]
          intro tr htr
          obtain ⟨a, b, cv⟩ := tr
          simp only [Bool.and_eq_true, beq_iff_eq, not_and]
          intro ha hb
          rw [ha, hb] at htr
          exact absurd htr (hno cv)
        rw [hDense]
        exact dense_of_filterKey_nil r col _ hkey
    · have hT : computeSparseConstraintsJacobian c s = [] := by
        unfold computeSparseConstraintsJacobian
        rw [if_neg hp]
      have hD : computeConstraintsJacobian c s = fun _ _ => 0 := by
        unfold computeConstraintsJacobian
        rw [if_neg hp]
      refine ⟨?_, ?_, ?_⟩
      · intro r col v hmem
        rw [hT] at hmem
        exact absurd hmem (List.not_mem_nil _)
      · intro tr htr
        rw [hT] at htr
        exact absurd htr (List.not_mem_nil _)
      · intro r col _
        rw [hD]

/-- Witness for C7 at a one-trial pose-only instance (`dofs = 1`, one
acceleration timestep, `dt = 1`): the instance is well-formed, its sparse
triples equal the spec reading, the single trial's block sits at its
`trialBase`, the layout columns ground in `flatten` at timestep 0, row 0
carries the triples `(0,0,1)`, `(0,3,−1)`, `(0,1,dt)`, the dense matrix
reproduces the entry at `(0,0)`, and vanishes at the triple-free key
`(5,5)`. -/
theorem sparse_jacobian_rows_and_dense_witness :
    WF c7w s7w
    ∧ c7w.includePoses = true
    ∧ 0 < s7w.trials.length
    ∧ 0 < c7w.dofs
    ∧ computeSparseConstraintsJacobian c7w s7w = sparseJacobianSpec c7w s7w
    ∧ (∃ P Q, computeSparseConstraintsJacobian c7w s7w
        = P ++ (specTrialRows c7w.dofs (s7w.trials.getD 0 emptyTrial).accs.length
            (trialBase c7w s7w 0)
            (rowSpan c7w.dofs
              ((s7w.trials.take 0).map (fun tr => (tr.dt, tr.accs.length))))
            (s7w.trials.getD 0 emptyTrial).dt ++ Q))
    ∧ (flatten c7w s7w).getD
        (qFlatCol c7w.dofs (s7w.trials.getD 0 emptyTrial).accs.length
          (trialBase c7w s7w 0) 0 0) 0
        = ((s7w.trials.getD 0 emptyTrial).poses.getD 0 []).getD 0 0
    ∧ (flatten c7w s7w).getD (vFlatCol c7w.dofs (trialBase c7w s7w 0) 0 0) 0
        = ((s7w.trials.getD 0 emptyTrial).vels.getD 0 []).getD 0 0
    ∧ (flatten c7w s7w).getD (aFlatCol c7w.dofs (trialBase c7w s7w 0) 0 0) 0
        = ((s7w.trials.getD 0 emptyTrial).accs.getD 0 []).getD 0 0
    ∧ ((0, 0, (1 : s_t)) ∈ computeSparseConstraintsJacobian c7w s7w)
    ∧ (∃ dt c1 c2 c3, dt ∈ s7w.trials.map TrialData.dt
        ∧ c1 ≠ c2 ∧ c1 ≠ c3 ∧ c2 ≠ c3
        ∧ filterRow 0 (computeSparseConstraintsJacobian c7w s7w)
            = [(0, c1, 1), (0, c2, -1), (0, c3, dt)])
    ∧ computeConstraintsJacobian c7w s7w 0 0 = 1
    ∧ (∀ v, (5, 5, v) ∉ computeSparseConstraintsJacobian c7w s7w)
    ∧ computeConstraintsJacobian c7w s7w 5 5 = 0 := by
  have h1 : ((0, 0, (1 : s_t)) ∈ computeSparseConstraintsJacobian c7w s7w) := by
    decide
  have h5 : ∀ p ∈ computeSparseConstraintsJacobian c7w s7w, p.1 ≠ 5 := by
    decide
  have hno : ∀ v, ((5, 5, v) : Triple) ∉ computeSparseConstraintsJacobian c7w s7w :=
    fun v hv => (h5 _ hv) rfl
  refine ⟨by decide, rfl, by decide, by decide,
    (sparse_jacobian_rows_and_dense c7w s7w).1,
    (sparse_jacobian_rows_and_dense c7w s7w).2.1 rfl 0 (by decide),
    ((sparse_jacobian_rows_and_dense c7w s7w).2.2.1 (by decide) rfl 0 (by decide)
      0 0 (by decide)).1 (by decide),
    ((sparse_jacobian_rows_and_dense c7w s7w).2.2.1 (by decide) rfl 0 (by decide)
      0 0 (by decide)).2.1 (by decide),
    ((sparse_jacobian_rows_and_dense c7w s7w).2.2.1 (by decide) rfl 0 (by decide)
      0 0 (by decide)).2.2 (by decide),
    h1,
    (sparse_jacobian_rows_and_dense c7w s7w).2.2.2.1 0 0 1 h1,
    (sparse_jacobian_rows_and_dense c7w s7w).2.2.2.2.1 (0, 0, (1 : s_t)) h1,
    hno,
    (sparse_jacobian_rows_and_dense c7w s7w).2.2.2.2.2 5 5 hno⟩

/-- C8: evaluating `computeLoss` or `computeGradient` with
`probablyMissingGRF` holding fewer per-trial entries than `poseTrials`
terminates the process (the `error` case); with an entry for every trial,
neither function terminates on this check. -/
theorem computeLoss_gradient_guard (m : LossModel) (s : ProblemState) :
    (computeLoss m s = Except.error ()
        ↔ m.probablyMissingGRF.length < s.trials.length)
    ∧ (computeGradient m s = Except.error ()
        ↔ m.probablyMissingGRF.length < s.trials.length)
    ∧ (¬ m.probablyMissingGRF.length < s.trials.length →
        computeLoss m s = Except.ok (computeLossValue m s)
          ∧ computeGradient m s = Except.ok ()) := by
  unfold computeLoss computeGradient
  by_cases hcase : m.probablyMissingGRF.length < s.trials.length <;> simp [hcase]

/-- Witness for C8 at a concrete one-trial instance with an empty
`probablyMissingGRF`. -/
theorem computeLoss_gradient_guard_witness :
    (computeLoss m8 s8 = Except.error ()
        ↔ m8.probablyMissingGRF.length < s8.trials.length)
    ∧ (computeGradient m8 s8 = Except.error ()
        ↔ m8.probablyMissingGRF.length < s8.trials.length)
    ∧ (¬ m8.probablyMissingGRF.length < s8.trials.length →
        computeLoss m8 s8 = Except.ok (computeLossValue m8 s8)
          ∧ computeGradient m8 s8 = Except.ok ()) :=
  computeLoss_gradient_guard m8 s8

/-- C9: a GRF body whose measured wrench has norm below `1e-3` (squared
norm below `1e-6`) is never flagged force-active; and when a contact
sphere predicts contact with no active measured force and every contact
body lies outside every plate footprint (including the synthesized
default), `probablyMissingGRF` is set at that frame. -/
theorem estimateFootGroundContacts_boundary (m : ContactTrialModel) (t b : ℕ) :
    (sqNorm (m.wrench t b) < 1 / 1000000 → forceActive m t b = false)
    ∧ (b < m.numGrfBodies → sphereInContact m t b = true →
        forceActive m t b = false →
        (∀ c < m.numContactBodies b, bodyInAnyPlate m t b c = false) →
        probablyMissingGRF m t = true) := by
  constructor
  · intro h
    simp only [forceActive, decide_eq_false_iff_not, not_lt]
    have hnum : (1 : s_t) / 1000000 ≤ 1 / 1000 := by norm_num
    linarith
  · intro hb hs hf hplates
    have hany : ((List.range (m.numContactBodies b)).any
        (fun c => bodyInAnyPlate m t b c)) = false := by
      rw [List.any_eq_false]
      intro c hc
      simp [hplates c (List.mem_range.mp hc)]
    simp only [probablyMissingGRF, List.any_eq_true]
    exact ⟨b, List.mem_range.mpr hb, by simp [contactIsSus, hs, hf, hany]⟩

/-- Witness for C9 at a concrete one-body, zero-wrench, no-plate frame. -/
theorem estimateFootGroundContacts_boundary_witness :
    (sqNorm (m9.wrench 0 0) < 1 / 1000000
      ∧ 0 < m9.numGrfBodies
      ∧ sphereInContact m9 0 0 = true
      ∧ (∀ c < m9.numContactBodies 0, bodyInAnyPlate m9 0 0 c = false))
    ∧ (forceActive m9 0 0 = false ∧ probablyMissingGRF m9 0 = true) := by
  have hw : sqNorm (m9.wrench 0 0) < 1 / 1000000 := by
    norm_num [sqNorm, m9]
  have hs : sphereInContact m9 0 0 = true := by
    simp only [sphereInContact, m9, List.range_succ]
    norm_num
  refine ⟨⟨hw, by decide, hs, by decide⟩, ?_, ?_⟩
  · exact (estimateFootGroundContacts_boundary m9 0 0).1 hw
  · exact (estimateFootGroundContacts_boundary m9 0 0).2 (by decide) hs
      ((estimateFootGroundContacts_boundary m9 0 0).1 hw) (by decide)

/-- C10: `runOptimization` configures a freshly-built problem, whose L1
flags default to false, so the residual and marker weights entering the
loss are the squares of the caller's arguments; only in L1 mode would the
weights pass through unsquared. -/
theorem runOptimization_squares_weights (wr wm : s_t)
    (f1 f2 f3 f4 f5 f6 : Bool) :
    ((runOptimizationSetup wr wm f1 f2 f3 f4 f5 f6).residualWeight = wr * wr
      ∧ (runOptimizationSetup wr wm f1 f2 f3 f4 f5 f6).markerWeight = wm * wm
      ∧ (runOptimizationSetup wr wm f1 f2 f3 f4 f5 f6).residualUseL1 = false
      ∧ (runOptimizationSetup wr wm f1 f2 f3 f4 f5 f6).markerUseL1 = false)
    ∧ (∀ p : FitProblemSettings,
        (applyRunWeights p wr wm).residualWeight
            = (if p.residualUseL1 then wr else wr * wr)
        ∧ (applyRunWeights p wr wm).markerWeight
            = (if p.markerUseL1 then wm else wm * wm)) :=
  ⟨⟨rfl, rfl, rfl, rfl⟩, fun _ => ⟨rfl, rfl⟩⟩

end DynamicsFitter
